import Mathlib

/-!
# Verification of the schema-driven Firestore admin panel engine

A shallow embedding, in Lean 4, of the pure core of the
`firestore-admin-panel` repository: the validation engine
(`lib/validation.ts` and its second in-repo copy), the permission
evaluator (`lib/hooks/useRolePermissions.ts`), and the query engine,
mutation flow and CSV bridge of
`src/app/dashboard/[collection]/page.tsx`.

Modelling conventions:
* JavaScript strings are embedded as `List Char`; field names are kept
  as Lean `String` for readability.
* JavaScript numbers are embedded as `Int` (the programs under study use
  them as integral quantities); `NaN` is represented by `Option.none`
  where a conversion can fail, and the ECMAScript rule that a comparator
  result of `NaN` is treated as `0` is applied where relevant.
* Regular-expression testing (`new RegExp(p).test(s)`) and WHATWG URL
  parsing (`new URL(s)`) are not reimplemented; the functions that use
  them are parameterised by `regexTest` (`none` = the `RegExp`
  constructor throws) and `urlValid`.  All theorems hold for every
  instantiation of these parameters.
-/

/-! ## Character-list string helpers (JS string operations) -/

/-- `hay.startsWith needle` on character lists. -/
def startsWithL : List Char → List Char → Bool
  | _, [] => true
  | [], _ :: _ => false
  | a :: as, b :: bs => a == b && startsWithL as bs

/-- JS `hay.includes(needle)`: `needle` occurs contiguously in `hay`. -/
def hasInfixL (hay needle : List Char) : Bool :=
  match hay with
  | [] => needle.isEmpty
  | _ :: t => startsWithL hay needle || hasInfixL t needle

/-- JS `String.prototype.split` with a single-character separator. -/
def splitOnChar (c : Char) : List Char → List (List Char)
  | [] => [[]]
  | x :: xs =>
    let r := splitOnChar c xs
    if x = c then [] :: r
    else
      match r with
      | [] => [[x]]
      | y :: ys => (x :: y) :: ys

/-- JS `Array.prototype.join` with a single-character separator. -/
def joinWithChar (c : Char) : List (List Char) → List Char
  | [] => []
  | [p] => p
  | p :: ps => p ++ c :: joinWithChar c ps

/-- The whitespace class used by JS `String.prototype.trim`
(restricted to the ASCII whitespace appearing in this development). -/
def jsIsWs (c : Char) : Bool :=
  c == ' ' || c == '\t' || c == '\n' || c == '\r'

/-- JS `s.trim()`. -/
def trimChars (s : List Char) : List Char :=
  ((s.dropWhile jsIsWs).reverse.dropWhile jsIsWs).reverse

/-- Lower-casing a JS string (`String.prototype.toLowerCase`),
character by character. -/
def toLowerChars (s : List Char) : List Char :=
  s.map Char.toLower

/-- Decimal digits of a natural number (fuel-driven so that the kernel
can evaluate it). -/
def natDigits : Nat → Nat → List Char
  | 0, _ => []
  | fuel + 1, n =>
    let d := Char.ofNat (n % 10 + 48)
    if n < 10 then [d] else natDigits fuel (n / 10) ++ [d]

/-- Rendering of an `Int` the way JS `String(number)` renders an
integral number. -/
def intToChars (n : Int) : List Char :=
  if n < 0 then '-' :: natDigits n.natAbs n.natAbs else natDigits (n.toNat + 1) n.toNat

/-- Parse a non-empty all-digit string. -/
def parseDigits : List Char → Option Nat
  | [] => none
  | l => l.foldl (fun acc c =>
      match acc with
      | none => none
      | some n => if c.isDigit then some (n * 10 + (c.toNat - 48)) else none)
      (some 0)

/-- Parse an optionally signed integer literal; `none` models `NaN`. -/
def parseIntChars : List Char → Option Int
  | '-' :: rest => (parseDigits rest).map (fun m => -(m : Int))
  | '+' :: rest => (parseDigits rest).map (fun m => (m : Int))
  | s => (parseDigits s).map (fun m => (m : Int))

/-! ## The JS value model -/

/-- A Firestore document value as the page manipulates it:
`string | number | boolean | null | undefined`. -/
inductive JsValue where
  | str : List Char → JsValue
  | num : Int → JsValue
  | bool : Bool → JsValue
  | null : JsValue
  | undefined : JsValue
deriving DecidableEq, Repr

/-- JS `String(value)` on the value model. -/
def jsValueToString : JsValue → List Char
  | .str s => s
  | .num n => intToChars n
  | .bool b => if b then "true".toList else "false".toList
  | .null => "null".toList
  | .undefined => "undefined".toList

/-- JS `Number(value)`; `none` models `NaN`.  String conversion is
modelled on integer literals (the numeric shape used by the pages). -/
def jsToNumber : JsValue → Option Int
  | .num n => some n
  | .bool b => some (if b then 1 else 0)
  | .null => some 0
  | .undefined => none
  | .str s =>
    let t := trimChars s
    if t.isEmpty then some 0 else parseIntChars t

/-- JS `parseFloat(value) || 0` as used by the coercion sites of
`page.tsx` (modelled on integer-literal strings). -/
def jsParseFloatOr0 (s : List Char) : Int :=
  (parseIntChars (trimChars s)).getD 0

/-! ## Schema model (`types/index.ts`) -/

/-- `FieldDef.type`. -/
inductive FieldType where
  | text | number | boolean | select | date | email | url
deriving DecidableEq, Repr

/-- `ValidationRule` of `types/index.ts`.  `min`/`max` being `none`
covers both the absent (`undefined`) and `null` cases, which every
use site treats identically (`!== null && !== undefined`). -/
structure ValidationRule where
  required : Bool := false
  min : Option Int := none
  max : Option Int := none
  pattern : Option (List Char) := none
  patternError : Option (List Char) := none
  email : Bool := false
  url : Bool := false
deriving DecidableEq, Repr

/-- `FieldDef` of `types/index.ts` (the `description` display hint is
irrelevant to every claim and omitted). -/
structure FieldDef where
  name : String
  type : FieldType
  options : List (List Char) := []
  validation : Option ValidationRule := none
  order : Int := 0
deriving DecidableEq, Repr

/-- A validation error, `{field, message}`. -/
structure ValidationError where
  field : String
  message : List Char
deriving DecidableEq, Repr

/-! ## Validation engine, copy 1: `lib/validation.ts`

This is the copy resolved by the pages' `@/lib/validation` import.  The
checks run in source order with an early return on the first failure:
required, numeric min, numeric max, pattern, email, url.  It has no
"empty and not required" short-circuit. -/

/-- The concrete email regex `/^[^\s@]+@[^\s@]+\.[^\s@]+$/` of both
validation copies, decided directly: the string decomposes as
`a ++ "@" ++ b ++ "." ++ c` with `a`, `b`, `c` non-empty and free of
whitespace and `@` (`b` and `c` may contain further dots). -/
def emailChar (c : Char) : Bool := !jsIsWs c && c != '@'

/-- Executable form of the email regex: exactly one `@`, non-empty
local part, and a dot strictly inside the non-empty domain part. -/
def emailMatches (s : List Char) : Bool :=
  match splitOnChar '@' s with
  | [a, p] =>
    !a.isEmpty && a.all emailChar && !p.isEmpty && p.all emailChar &&
      (List.range p.length).any (fun i =>
        decide (0 < i) && decide (i + 1 < p.length) && (p.getD i ' ' == '.'))
  | _ => false

/-- `validateField` of `lib/validation.ts`.  `regexTest p s = none`
models the `RegExp` constructor throwing on an invalid pattern. -/
def validateField (regexTest : List Char → List Char → Option Bool)
    (urlValid : List Char → Bool) (fieldName : String) (value : JsValue)
    (validation : Option ValidationRule) : Option ValidationError :=
  match validation with
  | none => none
  | some v =>
    let requiredErr : Option ValidationError :=
      if v.required && (value == .null || value == .undefined || value == .str []) then
        some ⟨fieldName, "This field is required".toList⟩
      else none
    let numErr : Option ValidationError :=
      match value with
      | .num n =>
        let minErr :=
          match v.min with
          | some m =>
            if n < m then
              some ⟨fieldName, "Value must be at least ".toList ++ intToChars m⟩
            else none
          | none => none
        let maxErr :=
          match v.max with
          | some m =>
            if n > m then
              some ⟨fieldName, "Value must be at most ".toList ++ intToChars m⟩
            else none
          | none => none
        minErr <|> maxErr
      | _ => none
    let patternErr : Option ValidationError :=
      match value with
      | .str s =>
        match v.pattern with
        | some p =>
          if p.isEmpty then none  -- `validation.pattern` is falsy for ""
          else
            match regexTest p s with
            | none => some ⟨fieldName, "Invalid validation pattern".toList⟩
            | some b =>
              if b then none
              else
                some ⟨fieldName,
                  match v.patternError with
                  | some pe => if pe.isEmpty then "Invalid format".toList else pe
                  | none => "Invalid format".toList⟩
        | none => none
      | _ => none
    let emailErr : Option ValidationError :=
      match value with
      | .str s =>
        if v.email && !emailMatches s then
          some ⟨fieldName, "Invalid email address".toList⟩
        else none
      | _ => none
    let urlErr : Option ValidationError :=
      match value with
      | .str s =>
        if v.url && !urlValid s then some ⟨fieldName, "Invalid URL".toList⟩ else none
      | _ => none
    requiredErr <|> numErr <|> patternErr <|> emailErr <|> urlErr

/-- `ValidationResult`. -/
structure ValidationResult where
  isValid : Bool
  errors : List ValidationError
deriving DecidableEq, Repr

/-- `doc[field.name]`: JS property access returns `undefined` for an
absent key. -/
def docGet (doc : List (String × JsValue)) (k : String) : JsValue :=
  match doc.lookup k with
  | some v => v
  | none => .undefined

/-- `validateDocument` of `lib/validation.ts`: runs `validateField`
over every declared field and aggregates the errors. -/
def validateDocument (regexTest : List Char → List Char → Option Bool)
    (urlValid : List Char → Bool) (doc : List (String × JsValue))
    (fields : List FieldDef) : ValidationResult :=
  let errors := fields.filterMap
    (fun f => validateField regexTest urlValid f.name (docGet doc f.name) f.validation)
  ⟨errors.isEmpty, errors⟩

/-! ## Validation engine, copy 2: the second in-repo copy of
`validateField` (the unnamed source file), which *does* short-circuit
on an empty, non-required value, and additionally length-checks
strings. -/

/-- `validateField` of the second copy. -/
def validateFieldAlt (regexTest : List Char → List Char → Option Bool)
    (urlValid : List Char → Bool) (fieldName : String) (value : JsValue)
    (validation : Option ValidationRule) : Option ValidationError :=
  match validation with
  | none => none
  | some v =>
    if v.required && (value == .null || value == .undefined || value == .str []) then
      some ⟨fieldName, fieldName.toList ++ " is required".toList⟩
    else if value == .null || value == .undefined || value == .str [] then
      none  -- skip further validation if value is empty and not required
    else
      let numErr : Option ValidationError :=
        match value with
        | .num n =>
          let minErr :=
            match v.min with
            | some m =>
              if n < m then
                some ⟨fieldName, fieldName.toList ++ " must be at least ".toList ++ intToChars m⟩
              else none
            | none => none
          let maxErr :=
            match v.max with
            | some m =>
              if n > m then
                some ⟨fieldName, fieldName.toList ++ " must be at most ".toList ++ intToChars m⟩
              else none
            | none => none
          minErr <|> maxErr
        | _ => none
      let patternErr : Option ValidationError :=
        match value with
        | .str s =>
          match v.pattern with
          | some p =>
            if p.isEmpty then none
            else
              match regexTest p s with
              | none => some ⟨fieldName, "Invalid validation pattern".toList⟩
              | some b =>
                if b then none
                else
                  some ⟨fieldName,
                    match v.patternError with
                    | some pe =>
                      if pe.isEmpty then fieldName.toList ++ " has an invalid format".toList
                      else pe
                    | none => fieldName.toList ++ " has an invalid format".toList⟩
          | none => none
        | _ => none
      let emailErr : Option ValidationError :=
        match value with
        | .str s =>
          if v.email && !emailMatches s then
            some ⟨fieldName, "Please enter a valid email address".toList⟩
          else none
        | _ => none
      let urlErr : Option ValidationError :=
        match value with
        | .str s =>
          if v.url && !urlValid s then
            some ⟨fieldName, "Please enter a valid URL".toList⟩
          else none
        | _ => none
      let lenErr : Option ValidationError :=
        match value with
        | .str s =>
          let minErr :=
            match v.min with
            | some m =>
              if (s.length : Int) < m then
                some ⟨fieldName, fieldName.toList ++ " must be at least ".toList ++
                  intToChars m ++ " characters".toList⟩
              else none
            | none => none
          let maxErr :=
            match v.max with
            | some m =>
              if (s.length : Int) > m then
                some ⟨fieldName, fieldName.toList ++ " must be at most ".toList ++
                  intToChars m ++ " characters".toList⟩
              else none
            | none => none
          minErr <|> maxErr
        | _ => none
      numErr <|> patternErr <|> emailErr <|> urlErr <|> lenErr

/-! ## Permission evaluator (`lib/hooks/useRolePermissions.ts`,
second document in the file — the copy the claims cite) -/

/-- The four boolean capabilities of a role document's `permissions`
object. -/
structure RolePermissions where
  canView : Bool
  canEdit : Bool
  canDelete : Bool
  canManageRoles : Bool
deriving DecidableEq, Repr

/-- A stored role document: its `permissions` key may be absent
(the "legacy structure" branch of the hook). -/
structure RoleDocData where
  permissions : Option RolePermissions
deriving DecidableEq, Repr

/-- The permission set the hook publishes. -/
structure ResolvedPermissions where
  role : String
  canView : Bool
  canEdit : Bool
  canDelete : Bool
  canManageRoles : Bool
deriving DecidableEq, Repr

/-- The role-document branch of `useRolePermissions`: `roleData` is
`roleSnap.data()`, which is `undefined` (`none`) when the role document
does not exist.  When `roleData?.permissions` is an object it is spread
into the result; when the document exists without a `permissions`
object the legacy branch reads `roleData.permissions?.x ?? false`,
i.e. all-false; when the document is missing, each capability defaults
to `role === 'admin'`. -/
def resolveRolePermissions (role : String) (roleData : Option RoleDocData) :
    ResolvedPermissions :=
  match roleData with
  | some rd =>
    match rd.permissions with
    | some p => ⟨role, p.canView, p.canEdit, p.canDelete, p.canManageRoles⟩
    | none => ⟨role, false, false, false, false⟩
  | none => ⟨role, role == "admin", role == "admin", role == "admin", role == "admin"⟩

/-- The `catch` branch of `useRolePermissions`: on any exception while
loading permissions, `isAdmin := user.email?.toLowerCase().includes('admin') ?? false`
and all four capabilities are set to `isAdmin`. -/
def permissionsOnLoadError (email : Option (List Char)) : ResolvedPermissions :=
  let isAdmin :=
    match email with
    | some e => hasInfixL (toLowerChars e) "admin".toList
    | none => false
  ⟨if isAdmin then "admin" else "unknown", isAdmin, isAdmin, isAdmin, isAdmin⟩

/-- Claim-side predicate: the authenticated user's email contains the
substring `"admin"`, case-insensitively. -/
def emailContainsAdmin (email : Option (List Char)) : Bool :=
  match email with
  | some e => hasInfixL (toLowerChars e) "admin".toList
  | none => false

/-! ## Query engine (`page.tsx`, second document: `processFilters`,
`processedDocs`, `handleSort`, `currentPageDocs`) -/

/-- A cached Firestore document: its `id` plus the data fields
(`{ id: d.id, ...d.data() }`). -/
structure JsDoc where
  id : List Char
  fields : List (String × JsValue)
deriving DecidableEq, Repr

/-- The text-search part of the `processFilters` predicate: the
document survives when the search string is empty (falsy) or some
entry other than `id` contains it case-insensitively. -/
def matchesSearch (search : List Char) (d : JsDoc) : Bool :=
  search.isEmpty ||
    d.fields.any (fun kv =>
      kv.1 != "id" &&
        hasInfixL (toLowerChars (jsValueToString kv.2)) (toLowerChars search))

/-- JS `a !== b` on possibly-NaN numbers, negated: `some`/`some` compares
the integers, any `NaN` (`none`) makes strict equality false. -/
def jsNumEq : Option Int → Option Int → Bool
  | some x, some y => x == y
  | _, _ => false

/-- JS `a <= b` with NaN: any NaN makes the comparison false. -/
def jsNumLe : Option Int → Option Int → Bool
  | some x, some y => decide (x ≤ y)
  | _, _ => false

/-- JS `a < b` with NaN: any NaN makes the comparison false. -/
def jsNumLt : Option Int → Option Int → Bool
  | some x, some y => decide (x < y)
  | _, _ => false

/-- One `case 'number'` arm of the filter `switch`: whether the document
survives the numeric filter under the selected operator.  An operator
string outside the five cases matches no `case` and leaves the document
in place. -/
def numberFilterOk (op : String) (numDocValue numValue : Option Int) : Bool :=
  if op = "=" then jsNumEq numDocValue numValue
  else if op = ">" then !jsNumLe numDocValue numValue
  else if op = "<" then !jsNumLe numValue numDocValue
  else if op = ">=" then !jsNumLt numDocValue numValue
  else if op = "<=" then !jsNumLt numValue numDocValue
  else true

/-- One iteration of the advanced-filter loop of `processFilters`:
`true` means the document survives this `(fieldName, filterValue)`
entry.  An empty filter value and a field name not declared in the
schema are both skipped (`continue`). -/
def filterCheck (fields : List FieldDef) (numberOperators : List (String × String))
    (d : JsDoc) (fieldName : String) (filterValue : List Char) : Bool :=
  if filterValue.isEmpty then true
  else
    match fields.find? (fun f => f.name == fieldName) with
    | none => true
    | some field =>
      let docValue := docGet d.fields fieldName
      match field.type with
      | .number =>
        let op :=
          match numberOperators.lookup fieldName with
          | some o => if o = "" then "=" else o
          | none => "="
        numberFilterOk op (jsToNumber docValue) (jsToNumber (.str filterValue))
      | .boolean => jsValueToString docValue == filterValue
      | .select => docValue == .str filterValue
      | _ =>
        hasInfixL (toLowerChars (jsValueToString docValue)) (toLowerChars filterValue)

/-- The whole per-document predicate of `processFilters`. -/
def retainDoc (fields : List FieldDef) (numberOperators : List (String × String))
    (search : List Char) (filters : List (String × List Char)) (d : JsDoc) : Bool :=
  matchesSearch search d &&
    filters.all (fun p => filterCheck fields numberOperators d p.1 p.2)

/-- `processFilters` as the pure function from the cached snapshot to
the filtered snapshot.  (The hook returns early on an empty cache,
leaving the previous `cachedFilteredDocs` in place; on an empty cache
no cached document is retained either way, which is the aspect the
claims are about.) -/
def processFilters (cachedDocs : List JsDoc) (fields : List FieldDef)
    (numberOperators : List (String × String)) (search : List Char)
    (filters : List (String × List Char)) : List JsDoc :=
  cachedDocs.filter (retainDoc fields numberOperators search filters)

/-- Sort direction (`'asc' | 'desc'`; the absent state is `Option`). -/
inductive SortDir where
  | asc | desc
deriving DecidableEq, Repr

/-- Sign-valued lexicographic string comparison by character code,
modelling `String.prototype.localeCompare` on the plain strings this
code base compares. -/
def strCmp : List Char → List Char → Int
  | [], [] => 0
  | [], _ :: _ => -1
  | _ :: _, [] => 1
  | a :: as, b :: bs =>
    if a.toNat < b.toNat then -1
    else if b.toNat < a.toNat then 1
    else strCmp as bs

/-- The comparator passed to `sort` inside `processedDocs`.  Null and
undefined values return `1` / `-1` before the direction is applied; a
`number`-typed field compares `Number(a) - Number(b)` (a `NaN` result is
treated as `0`, as ECMAScript `SortCompare` prescribes); every other
type compares stringified values. -/
def sortCompare (fields : List FieldDef) (sortField : String) (dir : SortDir)
    (a b : JsDoc) : Int :=
  match fields.find? (fun f => f.name == sortField) with
  | none => 0
  | some field =>
    let aValue := docGet a.fields sortField
    let bValue := docGet b.fields sortField
    if aValue == .null || aValue == .undefined then 1
    else if bValue == .null || bValue == .undefined then -1
    else
      let comparison : Int :=
        match field.type with
        | .number =>
          match jsToNumber aValue, jsToNumber bValue with
          | some x, some y => x - y
          | _, _ => 0
        | _ => strCmp (jsValueToString aValue) (jsValueToString bValue)
      match dir with
      | .asc => comparison
      | .desc => -comparison

/-- Stable insertion of `a` into `l`: `a` is placed before the first
element `b` with `le a b`. -/
def jsOrderedInsert (le : α → α → Bool) (a : α) : List α → List α
  | [] => [a]
  | b :: l => if le a b then a :: b :: l else b :: jsOrderedInsert le a l

/-- A stable comparison sort honouring `le`.  `Array.prototype.sort` is
required by ECMAScript to be stable, and is fully specified only for
consistent comparators (for an inconsistent comparator the resulting
order is implementation-defined); this embedding fixes the canonical
stable insertion sort, which agrees with every stable sort whenever the
comparator is consistent. -/
def jsStableSort (le : α → α → Bool) : List α → List α
  | [] => []
  | a :: l => jsOrderedInsert le a (jsStableSort le l)

/-- The boolean "may stay before" relation derived from the comparator:
`compare a b <= 0`. -/
def docLe (fields : List FieldDef) (sortField : String) (dir : SortDir)
    (a b : JsDoc) : Bool :=
  decide (sortCompare fields sortField dir a b ≤ 0)

/-- The well-behavedness condition under which the comparator is a
total preorder on a document: the sort-field value is neither `null`
nor `undefined`, and when the sort field is a `number` field the value
converts to an actual number (not `NaN`).  Two `null`/`undefined`
values compare as `1` in *both* orders and a `NaN` conversion makes
the comparator non-transitive, so outside this condition the comparator
is inconsistent and ECMAScript leaves the sort order
implementation-defined. -/
def sortValOk (fields : List FieldDef) (sortField : String) (d : JsDoc) : Bool :=
  docGet d.fields sortField != .null && docGet d.fields sortField != .undefined &&
    (match fields.find? (fun f => f.name == sortField) with
     | some f =>
       if f.type = .number then (jsToNumber (docGet d.fields sortField)).isSome else true
     | none => true)

/-- `processedDocs`: the memoised filtered-and-sorted list.  An empty
filtered cache yields `[]`; no active sort field or direction yields
the filtered list unchanged; otherwise a copy is sorted by the
comparator. -/
def processedDocs (cachedFilteredDocs : List JsDoc) (fields : List FieldDef)
    (sortField : Option String) (sortDirection : Option SortDir) : List JsDoc :=
  if cachedFilteredDocs.isEmpty then []
  else
    match sortField, sortDirection with
    | some sf, some dir => jsStableSort (docLe fields sf dir) cachedFilteredDocs
    | _, _ => cachedFilteredDocs

/-- The `(sortField, sortDirection)` component of the page state. -/
structure SortState where
  sortField : Option String
  sortDirection : Option SortDir
deriving DecidableEq, Repr

/-- `handleSort`: clicking a column header cycles that field through
ascending → descending → off; clicking a different field starts it
ascending. -/
def handleSort (fieldName : String) (s : SortState) : SortState :=
  if s.sortField == some fieldName then
    match s.sortDirection with
    | some .asc => { s with sortDirection := some .desc }
    | some .desc => ⟨none, none⟩
    | none => s
  else ⟨some fieldName, some .asc⟩

/-- `ITEMS_PER_PAGE`. -/
def ITEMS_PER_PAGE : Nat := 20

/-- `currentPageDocs`: `processed.slice((page-1)*20, page*20)`. -/
def currentPageDocs (processed : List JsDoc) (currentPage : Nat) : List JsDoc :=
  (processed.drop ((currentPage - 1) * ITEMS_PER_PAGE)).take ITEMS_PER_PAGE

/-- The steady-state displayed document list (the `docs` state): the
cached snapshot filtered (`processFilters`), sorted (`processedDocs`)
and paginated (`currentPageDocs`), which the `setDocs(currentPageDocs)`
effect publishes. -/
def displayedDocs (cachedDocs : List JsDoc) (fields : List FieldDef)
    (numberOperators : List (String × String)) (search : List Char)
    (filters : List (String × List Char)) (sortField : Option String)
    (sortDirection : Option SortDir) (currentPage : Nat) : List JsDoc :=
  currentPageDocs
    (processedDocs (processFilters cachedDocs fields numberOperators search filters)
      fields sortField sortDirection)
    currentPage

/-! ## Mutation flow: `saveEdit` (`page.tsx`, second document) -/

/-- The value written for one edited field:
`f.type === "number" ? parseFloat(val) || 0 : f.type === "boolean" ? val === "true" : val`.
The same ternary appears in `saveEdit`, `addDocument`, `handleBulkEdit`
and the CSV import loop. -/
def coerceEditedValue (f : FieldDef) (val : List Char) : JsValue :=
  match f.type with
  | .number => .num (jsParseFloatOr0 val)
  | .boolean => .bool (val == "true".toList)
  | _ => .str val

/-- `validateAndUpdateField` (the boolean it returns): for a number
field the parsed value is validated, otherwise the raw string. -/
def validateAndUpdateField (regexTest : List Char → List Char → Option Bool)
    (urlValid : List Char → Bool) (f : FieldDef) (val : List Char) : Bool :=
  (validateField regexTest urlValid f.name
    (match f.type with
     | .number => .num (jsParseFloatOr0 val)
     | _ => .str val)
    f.validation).isNone

/-- Outcome of an awaited remote operation. -/
inductive WriteOutcome where
  | ok | fail
deriving DecidableEq, Repr

/-- The user-visible notification `saveEdit` ends with. -/
inductive Notification where
  | validationError | successNote | errorNote
deriving DecidableEq, Repr

/-- Observable result of one `saveEdit` invocation. -/
structure SaveEditResult where
  /-- The batched update applied to the store, when `batch.commit()`
  succeeded (a commit is never rolled back afterwards). -/
  committedUpdate : Option (List (String × JsValue))
  /-- Whether the changelog append completed. -/
  auditAppended : Bool
  /-- Whether the document list was re-fetched and the modal closed. -/
  refreshedList : Bool
  notification : Notification
deriving DecidableEq, Repr

/-- `saveEdit` for an authenticated user with an open editor, as a
function of the two awaited outcomes.  Validation failure returns
before any write; a commit failure jumps to the `catch` which shows the
error notification; a changelog (`ChangelogService.addEntry`) failure
after a successful commit also jumps to the same `catch` — the commit
is not rolled back, but the success notification and the refresh are
skipped. -/
def saveEdit (regexTest : List Char → List Char → Option Bool)
    (urlValid : List Char → Bool) (fields : List FieldDef)
    (editFields : List (String × List Char)) (commit audit : WriteOutcome) :
    SaveEditResult :=
  let valOf := fun (f : FieldDef) => ((editFields.lookup f.name).getD [])
  let updated := fields.map (fun f => (f.name, coerceEditedValue f (valOf f)))
  let hasErrors := fields.any (fun f => !(validateAndUpdateField regexTest urlValid f (valOf f)))
  if hasErrors then ⟨none, false, false, .validationError⟩
  else
    match commit with
    | .fail => ⟨none, false, false, .errorNote⟩
    | .ok =>
      match audit with
      | .fail => ⟨some updated, false, false, .errorNote⟩
      | .ok => ⟨some updated, true, true, .successNote⟩

/-! ## CSV bridge (`downloadCSV` and `handleCSVUpload`,
`page.tsx`, second document) -/

/-- The quote-doubling pass of the export (`value.replace(/"/g, '""')`). -/
def doubleQuotesIn (s : List Char) : List Char :=
  s.foldr (fun c acc => (if c = '"' then ['"', '"'] else [c]) ++ acc) []

/-- One exported CSV cell: a string containing a comma, double quote or
newline is wrapped in quotes with inner quotes doubled; any other value
is rendered the way `Array.prototype.join` stringifies it (`null`/
`undefined` become `''` via `value ?? ''`). -/
def csvCell (value : JsValue) : List Char :=
  match value with
  | .str s =>
    if s.contains ',' || s.contains '"' || s.contains '\n' then
      '"' :: doubleQuotesIn s ++ ['"']
    else s
  | .num n => intToChars n
  | .bool b => if b then "true".toList else "false".toList
  | .null => []
  | .undefined => []

/-- The header cells: `['id', ...fields.map(f => f.name)]`. -/
def expectedHeaderCells (fields : List FieldDef) : List (List Char) :=
  "id".toList :: fields.map (fun f => f.name.toList)

/-- The cells of one exported row: the raw `doc.id` followed by one
cell per schema field. -/
def csvRowCells (fields : List FieldDef) (d : JsDoc) : List (List Char) :=
  d.id :: fields.map (fun f => csvCell (docGet d.fields f.name))

/-- The line list `[headers.join(','), ...docs.map(row => row.join(','))]`. -/
def csvLinesOf (fields : List FieldDef) (docs : List JsDoc) : List (List Char) :=
  joinWithChar ',' (expectedHeaderCells fields) ::
    docs.map (fun d => joinWithChar ',' (csvRowCells fields d))

/-- The full exported CSV text (`lines.join('\n')`). -/
def csvContentOf (fields : List FieldDef) (docs : List JsDoc) : List Char :=
  joinWithChar '\n' (csvLinesOf fields docs)

/-- `downloadCSV`: refuses an empty displayed list, otherwise produces
the CSV text of the displayed documents. -/
def downloadCSV (docs : List JsDoc) (fields : List FieldDef) : Option (List Char) :=
  if docs.isEmpty then none else some (csvContentOf fields docs)

/-- Import-side cell cleanup:
`cell.trim().replace(/^"|"$/g, '')` — trim, then strip one leading and
one trailing double quote. -/
def csvCellClean (s : List Char) : List Char :=
  let t := trimChars s
  let t1 := if t.headD ' ' = '"' then t.drop 1 else t
  if t1.getLast? == some '"' then t1.dropLast else t1

/-- `text.split('\n').map(row => row.split(',').map(clean))`. -/
def parseCSVRows (text : List Char) : List (List (List Char)) :=
  (splitOnChar '\n' text).map (fun row => (splitOnChar ',' row).map csvCellClean)

/-- The header validation
`expectedHeaders.every((h, i) => headers[i] === h)`: positional
comparison over the expected list only; columns of the first row beyond
the expected length are not examined. -/
def headersMatchExpected (expected actual : List (List Char)) : Bool :=
  match expected, actual with
  | [], _ => true
  | _ :: _, [] => false
  | e :: es, a :: as => a == e && headersMatchExpected es as

/-- `docData` built by the import loop: field `index` reads
`row[index + 1] || ''` and coerces it by field type. -/
def importRowVals : List FieldDef → List (List Char) → List (String × JsValue)
  | [], _ => []
  | f :: fs, vals =>
    (f.name, coerceEditedValue f (vals.headD [])) :: importRowVals fs (vals.drop 1)

/-- Outcome of one data row of the import loop. -/
inductive CSVRowOutcome where
  /-- `row.length !== headers.length`: skipped silently (not counted). -/
  | ignored
  /-- Validation failed, or the id cell was empty: `errorCount++`. -/
  | counted
  /-- `batch.set(doc(db, collection, docId), docData)`: `successCount++`. -/
  | written (docId : List Char) (docData : List (String × JsValue))
deriving DecidableEq, Repr

/-- One iteration of the import loop over a parsed row. -/
def csvProcessRow (regexTest : List Char → List Char → Option Bool)
    (urlValid : List Char → Bool) (fields : List FieldDef) (headerLen : Nat)
    (row : List (List Char)) : CSVRowOutcome :=
  if row.length ≠ headerLen then .ignored
  else
    let docData := importRowVals fields (row.drop 1)
    if !(validateDocument regexTest urlValid docData fields).isValid then .counted
    else
      let docId := row.headD []
      if docId.isEmpty then .counted
      else .written docId docData

/-- Result of a completed CSV import batch. -/
structure CSVImportResult where
  /-- The `(docId, docData)` pairs staged with `batch.set`, in row order. -/
  written : List (List Char × List (String × JsValue))
  successCount : Nat
  errorCount : Nat
deriving DecidableEq, Repr

/-- `handleCSVUpload` up to the batch commit: parses the text, rejects
the whole import when the expected header sequence does not match the
first row positionally, and otherwise folds the import loop over the
remaining rows. -/
def handleCSVUpload (regexTest : List Char → List Char → Option Bool)
    (urlValid : List Char → Bool) (text : List Char) (fields : List FieldDef) :
    Except (List Char) CSVImportResult :=
  match parseCSVRows text with
  | [] => .error "CSV file is empty".toList
  | headers :: dataRows =>
    if !headersMatchExpected (expectedHeaderCells fields) headers then
      .error "CSV headers do not match collection fields".toList
    else
      let outcomes := dataRows.map (csvProcessRow regexTest urlValid fields headers.length)
      .ok
        { written := outcomes.filterMap (fun o =>
            match o with
            | .written i d => some (i, d)
            | _ => none)
          successCount := outcomes.countP (fun o =>
            match o with
            | .written _ _ => true
            | _ => false)
          errorCount := outcomes.countP (fun o => o == .counted) }

/-- Un-double doubled quotes (the RFC4180 decoding direction, used to
state that the export's quoting is faithful). -/
def undoubleQuotes : List Char → List Char
  | [] => []
  | [c] => [c]
  | c :: d :: t =>
    if c = '"' ∧ d = '"' then '"' :: undoubleQuotes t
    else c :: undoubleQuotes (d :: t)

/-- The RFC4180 decoding of one cell: strip a wrapping quote pair and
un-double the quotes inside it; anything unquoted is taken verbatim. -/
def csvUnescapeCell : List Char → List Char
  | [] => []
  | c :: rest =>
    if c = '"' then
      if rest.getLast? == some '"' then undoubleQuotes rest.dropLast else c :: rest
    else c :: rest

/-- A string value that survives the CSV round trip verbatim: free of
the comma/quote/newline specials (so the export never quotes it) and
stable under `trim` (so the import's cell cleanup keeps it). -/
def csvSafeStr (s : List Char) : Bool :=
  !s.contains ',' && !s.contains '"' && !s.contains '\n' && (trimChars s == s)

/-- The value shapes for which the round trip is stated: a `boolean`
field holds an actual boolean, a non-numeric field holds a CSV-safe
string.  (`number` fields are unconstrained here; the round-trip
theorem excludes them.) -/
def fieldValueOk (f : FieldDef) (v : JsValue) : Bool :=
  match f.type, v with
  | .boolean, .bool _ => true
  | .boolean, _ => false
  | .number, _ => true
  | _, .str s => csvSafeStr s
  | _, _ => false

/-! ## Theorems -/

/-! ### C1 — missing role document and the `"admin"` special case -/

/-- C1 (counterexample).  The claim asserts the `"admin"` grant "holds
regardless of the contents of any stored permission document for the
`admin` role"; but when a role document for `"admin"` exists and stores
all-false permissions, the hook publishes those stored values, so an
admin user gets no capability. -/
theorem claim_C1_counterexample :
    ¬ ((resolveRolePermissions "admin" (some ⟨some ⟨false, false, false, false⟩⟩)).canView = true ∧
       (resolveRolePermissions "admin" (some ⟨some ⟨false, false, false, false⟩⟩)).canEdit = true ∧
       (resolveRolePermissions "admin" (some ⟨some ⟨false, false, false, false⟩⟩)).canDelete = true ∧
       (resolveRolePermissions "admin" (some ⟨some ⟨false, false, false, false⟩⟩)).canManageRoles = true) := by
  decide

/-- C1 (amended).  When the role document does not exist, the resulting
permission set is all-false except that a role named exactly `"admin"`
receives all four capabilities; the admin grant applies only in that
missing-document branch — when a role document exists, its stored
permissions (or all-false, for the legacy shape without a `permissions`
object) are used even for the `"admin"` role. -/
theorem claim_C1 (role : String) :
    resolveRolePermissions role none =
      ⟨role, role == "admin", role == "admin", role == "admin", role == "admin"⟩ ∧
    (∀ p : RolePermissions,
      resolveRolePermissions role (some ⟨some p⟩) =
        ⟨role, p.canView, p.canEdit, p.canDelete, p.canManageRoles⟩) ∧
    resolveRolePermissions role (some ⟨none⟩) = ⟨role, false, false, false, false⟩ :=
  ⟨rfl, fun _ => rfl, rfl⟩

/-! ### C2 — audit append failing after a successful primary write -/

/-- C2 (counterexample).  After a successful `batch.commit()` the
`ChangelogService.addEntry` await sits in the same `try` block, so its
rejection reaches the `catch`: the commit is indeed not rolled back,
but the user sees the error notification, not the success one —
refuting "the user-visible result is still reported as success". -/
theorem claim_C2_counterexample :
    (saveEdit (fun _ _ => some true) (fun _ => true)
        [⟨"title", FieldType.text, [], none, 0⟩] [("title", "hello".toList)]
        WriteOutcome.ok WriteOutcome.fail).committedUpdate.isSome = true ∧
    (saveEdit (fun _ _ => some true) (fun _ => true)
        [⟨"title", FieldType.text, [], none, 0⟩] [("title", "hello".toList)]
        WriteOutcome.ok WriteOutcome.fail).notification = Notification.errorNote ∧
    (saveEdit (fun _ _ => some true) (fun _ => true)
        [⟨"title", FieldType.text, [], none, 0⟩] [("title", "hello".toList)]
        WriteOutcome.ok WriteOutcome.fail).notification ≠ Notification.successNote := by
  decide

/-- C2 (amended).  When the primary batched write succeeds and the
subsequent audit-log append fails, the primary write is not rolled back
(the committed update stands), but the operation is surfaced to the
user as an error: the audit entry is missing, the list refresh and
modal close are skipped, and the error notification is shown instead of
the success one. -/
theorem claim_C2 (regexTest : List Char → List Char → Option Bool)
    (urlValid : List Char → Bool) (fields : List FieldDef)
    (editFields : List (String × List Char))
    (hok : ∀ f ∈ fields,
      validateAndUpdateField regexTest urlValid f ((editFields.lookup f.name).getD []) = true) :
    saveEdit regexTest urlValid fields editFields WriteOutcome.ok WriteOutcome.fail =
      ⟨some (fields.map (fun f =>
          (f.name, coerceEditedValue f ((editFields.lookup f.name).getD [])))),
        false, false, Notification.errorNote⟩ := by
  unfold saveEdit
  have h : (fields.any (fun f =>
      !(validateAndUpdateField regexTest urlValid f ((editFields.lookup f.name).getD [])))) = false := by
    simp only [List.any_eq_false, Bool.not_eq_true']
    intro f hf
    simpa using hok f hf
  simp [h]

/-- C2 (witness). -/
theorem claim_C2_witness :
    saveEdit (fun _ _ => some true) (fun _ => true)
        [⟨"title", FieldType.text, [], none, 0⟩] [("title", "hi".toList)]
        WriteOutcome.ok WriteOutcome.fail =
      ⟨some ([⟨"title", FieldType.text, [], none, 0⟩].map (fun f =>
          (f.name, coerceEditedValue f (([(("title" : String), "hi".toList)].lookup f.name).getD [])))),
        false, false, Notification.errorNote⟩ :=
  claim_C2 (fun _ _ => some true) (fun _ => true) _ _ (by decide)

/-! ### C3 — empty optional values and the further checks -/

/-- C3 (counterexample).  In the `lib/validation.ts` copy there is no
"empty and not required" short-circuit: the empty string, on a
non-required field whose rule sets `email: true`, falls through to the
email regex and is rejected — the claim's "returns null, and no …
email … check is evaluated" fails for this copy. -/
theorem claim_C3_counterexample :
    validateField (fun _ _ => some false) (fun _ => false) "contact" (.str [])
        (some { required := false, email := true }) =
      some ⟨"contact", "Invalid email address".toList⟩ := by
  decide

/-- C3 (amended).  For a rule without `required`: both copies return
null on `null` and `undefined` with no further checks; the second
in-repo copy (`validateFieldAlt`) also short-circuits on the empty
string exactly as the claim states; but the `lib/validation.ts` copy
still subjects the empty string to the pattern, email and url checks —
it returns null on the empty string only when the rule carries none of
those. -/
theorem claim_C3 (regexTest : List Char → List Char → Option Bool)
    (urlValid : List Char → Bool) (fieldName : String) (v : ValidationRule)
    (hreq : v.required = false) :
    validateField regexTest urlValid fieldName .null (some v) = none ∧
    validateField regexTest urlValid fieldName .undefined (some v) = none ∧
    validateFieldAlt regexTest urlValid fieldName .null (some v) = none ∧
    validateFieldAlt regexTest urlValid fieldName .undefined (some v) = none ∧
    validateFieldAlt regexTest urlValid fieldName (.str []) (some v) = none ∧
    (v.pattern = none → v.email = false → v.url = false →
      validateField regexTest urlValid fieldName (.str []) (some v) = none) := by
  refine ⟨?_, ?_, ?_, ?_, ?_, ?_⟩
  · simp [validateField, hreq]
  · simp [validateField, hreq]
  · simp [validateFieldAlt, hreq]
  · simp [validateFieldAlt, hreq]
  · simp [validateFieldAlt, hreq]
  · intro hp he hu
    simp [validateField, hreq, hp, he, hu]

/-- C3 (witness). -/
theorem claim_C3_witness :
    validateField (fun _ _ => some true) (fun _ => true) "note" .null
        (some { required := false }) = none ∧
    validateField (fun _ _ => some true) (fun _ => true) "note" .undefined
        (some { required := false }) = none ∧
    validateFieldAlt (fun _ _ => some true) (fun _ => true) "note" .null
        (some { required := false }) = none ∧
    validateFieldAlt (fun _ _ => some true) (fun _ => true) "note" .undefined
        (some { required := false }) = none ∧
    validateFieldAlt (fun _ _ => some true) (fun _ => true) "note" (.str [])
        (some { required := false }) = none ∧
    (({ required := false } : ValidationRule).pattern = none →
      ({ required := false } : ValidationRule).email = false →
      ({ required := false } : ValidationRule).url = false →
      validateField (fun _ _ => some true) (fun _ => true) "note" (.str [])
        (some { required := false }) = none) :=
  claim_C3 (fun _ _ => some true) (fun _ => true) "note" { required := false } rfl

/-! ### C9 — inclusive numeric bounds -/

/-- C9.  With `min = 5, max = 10`, both copies of `validateField`
accept the numeric values 5, 7 and 10 and reject 4 and 11: the bounds
are inclusive.  This holds for every regex/url oracle because a numeric
value never reaches the string-only checks. -/
theorem claim_C9 (regexTest : List Char → List Char → Option Bool)
    (urlValid : List Char → Bool) (fieldName : String) :
    validateField regexTest urlValid fieldName (.num 5)
        (some { min := some 5, max := some 10 }) = none ∧
    validateField regexTest urlValid fieldName (.num 7)
        (some { min := some 5, max := some 10 }) = none ∧
    validateField regexTest urlValid fieldName (.num 10)
        (some { min := some 5, max := some 10 }) = none ∧
    (validateField regexTest urlValid fieldName (.num 4)
        (some { min := some 5, max := some 10 })).isSome = true ∧
    (validateField regexTest urlValid fieldName (.num 11)
        (some { min := some 5, max := some 10 })).isSome = true ∧
    validateFieldAlt regexTest urlValid fieldName (.num 5)
        (some { min := some 5, max := some 10 }) = none ∧
    validateFieldAlt regexTest urlValid fieldName (.num 7)
        (some { min := some 5, max := some 10 }) = none ∧
    validateFieldAlt regexTest urlValid fieldName (.num 10)
        (some { min := some 5, max := some 10 }) = none ∧
    (validateFieldAlt regexTest urlValid fieldName (.num 4)
        (some { min := some 5, max := some 10 })).isSome = true ∧
    (validateFieldAlt regexTest urlValid fieldName (.num 11)
        (some { min := some 5, max := some 10 })).isSome = true := by
  refine ⟨?_, ?_, ?_, ?_, ?_, ?_, ?_, ?_, ?_, ?_⟩ <;>
    simp [validateField, validateFieldAlt]

/-! ### C10 — permissions-load error falls back to email sniffing -/

/-- C10.  In the `catch` branch of `useRolePermissions`, the published
permission set grants all four capabilities exactly when the user's
email contains the substring `"admin"` case-insensitively, and grants
none of them otherwise — a load error elevates any such user to full
admin capabilities. -/
theorem claim_C10 (email : Option (List Char)) :
    permissionsOnLoadError email =
      (if emailContainsAdmin email then ⟨"admin", true, true, true, true⟩
       else ⟨"unknown", false, false, false, false⟩ : ResolvedPermissions) ∧
    (((permissionsOnLoadError email).canView = true ∧
      (permissionsOnLoadError email).canEdit = true ∧
      (permissionsOnLoadError email).canDelete = true ∧
      (permissionsOnLoadError email).canManageRoles = true) ↔
        emailContainsAdmin email = true) := by
  unfold permissionsOnLoadError emailContainsAdmin
  cases email with
  | none => simp
  | some e => cases h : hasInfixL (toLowerChars e) ['a', 'd', 'm', 'i', 'n'] <;> simp [h]

/-! ### C7 — search and filter conjunction -/

/-- A filter whose value is the empty string is skipped. -/
theorem filterCheck_nil_value (fields : List FieldDef)
    (numberOperators : List (String × String)) (d : JsDoc) (n : String) :
    filterCheck fields numberOperators d n [] = true := rfl

/-- C7.  A cached document is retained by `processFilters` exactly when
it matches the search and survives every active filter: filters with an
empty value are inactive and skipped, the search is the case-insensitive
substring test `matchesSearch` over the document's entries with the
`id` key excluded, and the empty search string matches every document. -/
theorem claim_C7 (cachedDocs : List JsDoc) (fields : List FieldDef)
    (numberOperators : List (String × String)) (search : List Char)
    (filters : List (String × List Char)) (d : JsDoc) :
    (d ∈ processFilters cachedDocs fields numberOperators search filters ↔
      d ∈ cachedDocs ∧ matchesSearch search d = true ∧
        ∀ p ∈ filters, p.2 ≠ [] → filterCheck fields numberOperators d p.1 p.2 = true) ∧
    matchesSearch [] d = true := by
  refine ⟨?_, rfl⟩
  rw [processFilters, List.mem_filter]
  unfold retainDoc
  rw [Bool.and_eq_true, List.all_eq_true]
  constructor
  · rintro ⟨hd, hs, hall⟩
    exact ⟨hd, hs, fun p hp _ => hall p hp⟩
  · rintro ⟨hd, hs, hact⟩
    refine ⟨hd, hs, fun p hp => ?_⟩
    by_cases hp2 : p.2 = []
    · rw [hp2]; exact filterCheck_nil_value ..
    · exact hact p hp hp2

/-! ### Split/join infrastructure for the CSV bridge -/

/-- Unfolding equation for `splitOnChar` on a cons cell. -/
theorem splitOnChar_cons (c x : Char) (xs : List Char) :
    splitOnChar c (x :: xs) =
      if x = c then [] :: splitOnChar c xs
      else
        match splitOnChar c xs with
        | [] => [[x]]
        | y :: ys => (x :: y) :: ys := rfl

/-- `split` never returns an empty list. -/
theorem splitOnChar_ne_nil (c : Char) (l : List Char) : splitOnChar c l ≠ [] := by
  cases l with
  | nil => simp [splitOnChar]
  | cons x xs =>
    rw [splitOnChar_cons]
    by_cases h : x = c
    · simp [h]
    · simp only [h, if_false]
      cases splitOnChar c xs <;> simp

/-- A separator-free string splits to itself. -/
theorem splitOnChar_of_not_mem (c : Char) (p : List Char) (h : c ∉ p) :
    splitOnChar c p = [p] := by
  induction p with
  | nil => rfl
  | cons x xs ih =>
    have hx : ¬x = c := fun hxc => h (by simp [hxc])
    have hxs : c ∉ xs := fun hm => h (by simp [hm])
    rw [splitOnChar_cons, if_neg hx, ih hxs]

/-- Splitting distributes over one leading separator-free segment. -/
theorem splitOnChar_append_sep (c : Char) (p t : List Char) (h : c ∉ p) :
    splitOnChar c (p ++ c :: t) = p :: splitOnChar c t := by
  induction p with
  | nil => simp [splitOnChar]
  | cons x xs ih =>
    have hx : ¬x = c := fun hxc => h (by simp [hxc])
    have hxs : c ∉ xs := fun hm => h (by simp [hm])
    rw [List.cons_append, splitOnChar_cons, if_neg hx, ih hxs]

/-- `split` is a left inverse of `join` on separator-free parts. -/
theorem splitOnChar_joinWithChar (c : Char) (ps : List (List Char)) (hne : ps ≠ [])
    (h : ∀ p ∈ ps, c ∉ p) : splitOnChar c (joinWithChar c ps) = ps := by
  induction ps with
  | nil => exact absurd rfl hne
  | cons p ps ih =>
    cases ps with
    | nil =>
      show splitOnChar c (joinWithChar c [p]) = [p]
      simpa [joinWithChar] using splitOnChar_of_not_mem c p (h p (by simp))
    | cons q qs =>
      have hrest : splitOnChar c (joinWithChar c (q :: qs)) = q :: qs :=
        ih (by simp) (fun r hr => h r (by simp [hr]))
      show splitOnChar c (p ++ c :: joinWithChar c (q :: qs)) = p :: q :: qs
      rw [splitOnChar_append_sep c p _ (h p (by simp)), hrest]

/-- Every character of a join is the separator or from one part. -/
theorem mem_joinWithChar (c x : Char) (ps : List (List Char))
    (h : x ∈ joinWithChar c ps) : x = c ∨ ∃ p ∈ ps, x ∈ p := by
  induction ps with
  | nil => simp [joinWithChar] at h
  | cons p ps ih =>
    cases ps with
    | nil =>
      simp only [joinWithChar] at h
      exact Or.inr ⟨p, by simp, h⟩
    | cons q qs =>
      simp only [joinWithChar, List.mem_append, List.mem_cons] at h
      rcases h with hp | hx | hrest
      · exact Or.inr ⟨p, by simp, hp⟩
      · exact Or.inl hx
      · rcases ih hrest with hc | ⟨r, hr, hxr⟩
        · exact Or.inl hc
        · exact Or.inr ⟨r, by simp [hr], hxr⟩

/-! ### C5 — header validation and per-row failures -/

/-- The header test accepts exactly the first rows that extend the
expected sequence positionally. -/
theorem headersMatchExpected_iff (e a : List (List Char)) :
    headersMatchExpected e a = true ↔ e <+: a := by
  induction e generalizing a with
  | nil => simp [headersMatchExpected, List.nil_prefix]
  | cons x xs ih =>
    cases a with
    | nil =>
      simp only [headersMatchExpected, Bool.false_eq_true, false_iff]
      intro hpre
      simpa using hpre.length_le
    | cons y ys =>
      rw [headersMatchExpected, Bool.and_eq_true, beq_iff_eq, ih]
      constructor
      · rintro ⟨rfl, ⟨t, rfl⟩⟩
        exact ⟨t, rfl⟩
      · rintro ⟨t, ht⟩
        rw [List.cons_append] at ht
        injection ht with h1 h2
        exact ⟨h1.symm, ⟨t, h2⟩⟩

/-- Parsing always yields at least the header row. -/
theorem parseCSVRows_ne_nil (text : List Char) : parseCSVRows text ≠ [] := by
  unfold parseCSVRows
  intro h
  rw [List.map_eq_nil] at h
  exact splitOnChar_ne_nil '\n' text h

/-- Each staged write is counted once as a success. -/
theorem length_written_eq_countP (os : List CSVRowOutcome) :
    (os.filterMap (fun o =>
      match o with
      | .written i d => some (i, d)
      | _ => none)).length =
    os.countP (fun o =>
      match o with
      | .written _ _ => true
      | _ => false) := by
  induction os with
  | nil => rfl
  | cons o os ih =>
    cases o <;> simp [List.countP_cons, ih]

/-- Successes and counted failures never overlap, so together they are
bounded by the number of data rows. -/
theorem countP_success_add_error_le (os : List CSVRowOutcome) :
    os.countP (fun o =>
      match o with
      | .written _ _ => true
      | _ => false) +
      os.countP (fun o => o == CSVRowOutcome.counted) ≤ os.length := by
  induction os with
  | nil => simp
  | cons o os ih =>
    cases o <;> simp [List.countP_cons] <;> omega

/-- C5 (counterexample).  A first row that is *not* equal to the
expected header sequence — it carries an extra trailing column — is
accepted, and the import proceeds to write the data row: the header
check only compares the expected positions. -/
theorem claim_C5_counterexample :
    handleCSVUpload (fun _ _ => some true) (fun _ => true)
        "id,name,extra\nd1,hello,junk".toList [⟨"name", FieldType.text, [], none, 0⟩] =
      .ok ⟨[("d1".toList, [("name", JsValue.str "hello".toList)])], 1, 0⟩ ∧
    (parseCSVRows "id,name,extra\nd1,hello,junk".toList).headD [] ≠
      expectedHeaderCells [⟨"name", FieldType.text, [], none, 0⟩] := by
  constructor
  · rfl
  · decide

/-- C5 (amended).  The import is accepted exactly when the expected
header sequence (`id` followed by the schema field names in order) is a
positional *prefix* of the parsed first row — equality is not required,
extra trailing columns are tolerated; when it is not, the whole import
is rejected with the header error before any row is processed or
staged.  When the import runs, every staged write is counted as one
success and the per-row failures are counted and skipped, so successes
plus failures never exceed the number of data rows. -/
theorem claim_C5 (regexTest : List Char → List Char → Option Bool)
    (urlValid : List Char → Bool) (text : List Char) (fields : List FieldDef) :
    ((∃ r, handleCSVUpload regexTest urlValid text fields = .ok r) ↔
      expectedHeaderCells fields <+: (parseCSVRows text).headD []) ∧
    (∀ r, handleCSVUpload regexTest urlValid text fields = .ok r →
      r.written.length = r.successCount ∧
        r.successCount + r.errorCount + 1 ≤ (parseCSVRows text).length) := by
  rcases hrows : parseCSVRows text with _ | ⟨headers, dataRows⟩
  · exact absurd hrows (parseCSVRows_ne_nil text)
  · unfold handleCSVUpload
    rw [hrows]
    simp only [List.headD_cons]
    by_cases hm : headersMatchExpected (expectedHeaderCells fields) headers = true
    · rw [← headersMatchExpected_iff]
      simp only [hm, Bool.not_true, if_false, Bool.true_eq, iff_true]
      refine ⟨⟨_, rfl⟩, fun r hr => ?_⟩
      injection hr with hr
      subst hr
      refine ⟨length_written_eq_countP _, ?_⟩
      have hb := countP_success_add_error_le
        (dataRows.map (csvProcessRow regexTest urlValid fields headers.length))
      simp only [List.length_map] at hb
      simp only [List.length_cons]
      omega
    · have hm' : headersMatchExpected (expectedHeaderCells fields) headers = false := by
        simpa using hm
      simp only [hm', Bool.not_false, if_true]
      refine ⟨iff_of_false ?_ ?_, ?_⟩
      · rintro ⟨r, hr⟩
        exact absurd hr (by simp)
      · intro hpre
        rw [← headersMatchExpected_iff] at hpre
        exact absurd hpre (by simp [hm'])
      · intro r hr
        exact absurd hr (by simp)

/-! ### C6 — what the export serializes, and how it quotes -/

/-- Unfolding equation for `doubleQuotesIn` on a cons cell. -/
theorem doubleQuotesIn_cons (c : Char) (cs : List Char) :
    doubleQuotesIn (c :: cs) =
      (if c = '"' then ['"', '"'] else [c]) ++ doubleQuotesIn cs := rfl

/-- Doubling the quotes of a non-empty string is non-empty. -/
theorem doubleQuotesIn_ne_nil (c : Char) (cs : List Char) :
    doubleQuotesIn (c :: cs) ≠ [] := by
  rw [doubleQuotesIn_cons]
  by_cases h : c = '"' <;> simp [h]

/-- Unfolding equation for `undoubleQuotes` on two leading cells. -/
theorem undoubleQuotes_cons2 (c d : Char) (t : List Char) :
    undoubleQuotes (c :: d :: t) =
      if c = '"' ∧ d = '"' then '"' :: undoubleQuotes t
      else c :: undoubleQuotes (d :: t) := rfl

/-- Un-doubling inverts doubling. -/
theorem undoubleQuotes_doubleQuotesIn (s : List Char) :
    undoubleQuotes (doubleQuotesIn s) = s := by
  induction s with
  | nil => rfl
  | cons c cs ih =>
    rw [doubleQuotesIn_cons]
    by_cases hc : c = '"'
    · subst hc
      rw [if_pos rfl]
      show undoubleQuotes ('"' :: '"' :: doubleQuotesIn cs) = '"' :: cs
      rw [undoubleQuotes_cons2, if_pos ⟨rfl, rfl⟩, ih]
    · rw [if_neg hc, List.singleton_append]
      cases hcs : doubleQuotesIn cs with
      | nil =>
        cases cs with
        | nil => rfl
        | cons d ds => exact absurd hcs (doubleQuotesIn_ne_nil d ds)
      | cons d t =>
        rw [undoubleQuotes_cons2, if_neg (fun hh => hc hh.1), ← hcs, ih]

/-- The export's cell encoding is faithful RFC4180-style quoting: the
standard decoding (strip the wrapping quotes, un-double inner quotes)
recovers every string value exactly. -/
theorem csvUnescapeCell_csvCell_str (s : List Char) :
    csvUnescapeCell (csvCell (.str s)) = s := by
  have hcell : csvCell (.str s) =
      if (s.contains ',' || s.contains '"' || s.contains '\n') = true then
        '"' :: doubleQuotesIn s ++ ['"']
      else s := rfl
  rw [hcell]
  by_cases hsp : (s.contains ',' || s.contains '"' || s.contains '\n') = true
  · rw [if_pos hsp]
    have hlast : (doubleQuotesIn s ++ ['"']).getLast? = some '"' := by
      simpa [List.concat_eq_append] using
        List.getLast?_concat (l := doubleQuotesIn s) (a := '"')
    have hdrop : (doubleQuotesIn s ++ ['"']).dropLast = doubleQuotesIn s := by
      simpa [List.concat_eq_append] using
        List.dropLast_concat (l := doubleQuotesIn s) (b := '"')
    have hstep : csvUnescapeCell ('"' :: (doubleQuotesIn s ++ ['"'])) =
        if ((doubleQuotesIn s ++ ['"']).getLast? == some '"') = true then
          undoubleQuotes (doubleQuotesIn s ++ ['"']).dropLast
        else '"' :: (doubleQuotesIn s ++ ['"']) := rfl
    rw [show ('"' :: doubleQuotesIn s ++ ['"']) = '"' :: (doubleQuotesIn s ++ ['"']) from rfl,
      hstep, hlast, hdrop]
    simpa using undoubleQuotes_doubleQuotesIn s
  · rw [if_neg hsp]
    have h0 : (s.contains ',' || s.contains '"' || s.contains '\n') = false := by
      simpa using hsp
    have hq : s.contains '"' = false := by
      simp only [Bool.or_eq_false_iff] at h0
      tauto
    cases s with
    | nil => rfl
    | cons c cs =>
      have hcq : ¬c = '"' := by
        intro hc
        subst hc
        simp [List.contains_cons] at hq
      have hstep : csvUnescapeCell (c :: cs) =
          if c = '"' then
            if (cs.getLast? == some '"') = true then undoubleQuotes cs.dropLast
            else c :: cs
          else c :: cs := rfl
      rw [hstep, if_neg hcq]

/-- C6 (counterexample).  `downloadCSV` reads the `docs` state, which
the display pipeline keeps equal to the *current page* of the filtered
and sorted snapshot.  With 21 cached documents, no search, no filters
and no sort, page 1 displays only the first 20, so the export carries
20 data rows — not one row per document of the cached snapshot. -/
theorem claim_C6_counterexample :
    (csvLinesOf [⟨"name", FieldType.text, [], none, 0⟩]
        (displayedDocs
          ((List.range 21).map (fun i =>
            ⟨natDigits (i + 1) i, [("name", JsValue.str ['x'])]⟩))
          [⟨"name", FieldType.text, [], none, 0⟩] [] [] [] none none 1)).length = 21 ∧
    ((List.range 21).map (fun i =>
      (⟨natDigits (i + 1) i, [("name", JsValue.str ['x'])]⟩ : JsDoc))).length + 1 = 22 ∧
    downloadCSV
        (displayedDocs
          ((List.range 21).map (fun i =>
            ⟨natDigits (i + 1) i, [("name", JsValue.str ['x'])]⟩))
          [⟨"name", FieldType.text, [], none, 0⟩] [] [] [] none none 1)
        [⟨"name", FieldType.text, [], none, 0⟩] ≠
      some (csvContentOf [⟨"name", FieldType.text, [], none, 0⟩]
        ((List.range 21).map (fun i =>
          ⟨natDigits (i + 1) i, [("name", JsValue.str ['x'])]⟩))) := by
  refine ⟨by decide, by decide, by decide⟩

/-- C6 (amended).  The export serializes the *currently displayed*
document list (the page slice of the filtered, sorted snapshot): a
header line `id, field1, …` in schema order, then exactly one line per
displayed document; string values are quoted RFC4180-style exactly when
they contain a comma, double quote or newline (wrapped in quotes,
inner quotes doubled — faithfully, since the standard decoding
recovers every value), and are emitted verbatim otherwise. -/
theorem claim_C6 (fields : List FieldDef) (docs : List JsDoc) (hne : docs ≠ []) :
    downloadCSV docs fields = some (csvContentOf fields docs) ∧
    (csvLinesOf fields docs).length = docs.length + 1 ∧
    (csvLinesOf fields docs).headD [] = joinWithChar ',' (expectedHeaderCells fields) ∧
    (∀ s : List Char, csvUnescapeCell (csvCell (.str s)) = s) ∧
    (∀ s : List Char, (s.contains ',' || s.contains '"' || s.contains '\n') = false →
      csvCell (.str s) = s) := by
  obtain ⟨d, ds, rfl⟩ : ∃ d ds, docs = d :: ds := by
    cases docs with
    | nil => exact absurd rfl hne
    | cons d ds => exact ⟨d, ds, rfl⟩
  refine ⟨rfl, by simp [csvLinesOf], rfl, csvUnescapeCell_csvCell_str, ?_⟩
  intro s hs
  show (if (s.contains ',' || s.contains '"' || s.contains '\n') = true then
      '"' :: doubleQuotesIn s ++ ['"'] else s) = s
  rw [hs]
  rfl

/-- C6 (witness). -/
theorem claim_C6_witness :
    downloadCSV [⟨['d', '1'], [("name", JsValue.str ['x'])]⟩]
        [⟨"name", FieldType.text, [], none, 0⟩] =
      some (csvContentOf [⟨"name", FieldType.text, [], none, 0⟩]
        [⟨['d', '1'], [("name", JsValue.str ['x'])]⟩]) ∧
    (csvLinesOf [⟨"name", FieldType.text, [], none, 0⟩]
        [⟨['d', '1'], [("name", JsValue.str ['x'])]⟩]).length =
      [(⟨['d', '1'], [("name", JsValue.str ['x'])]⟩ : JsDoc)].length + 1 ∧
    (csvLinesOf [⟨"name", FieldType.text, [], none, 0⟩]
        [⟨['d', '1'], [("name", JsValue.str ['x'])]⟩]).headD [] =
      joinWithChar ',' (expectedHeaderCells [⟨"name", FieldType.text, [], none, 0⟩]) ∧
    (∀ s : List Char, csvUnescapeCell (csvCell (.str s)) = s) ∧
    (∀ s : List Char, (s.contains ',' || s.contains '"' || s.contains '\n') = false →
      csvCell (.str s) = s) :=
  claim_C6 [⟨"name", FieldType.text, [], none, 0⟩]
    [⟨['d', '1'], [("name", JsValue.str ['x'])]⟩] (by decide)

/-! ### C8 — sorting: a stable-sort theory for the embedded comparator -/

/-- Unfolding equation for `jsOrderedInsert` on a cons cell. -/
theorem jsOrderedInsert_cons {α : Type} (le : α → α → Bool) (a b : α) (l : List α) :
    jsOrderedInsert le a (b :: l) =
      if le a b then a :: b :: l else b :: jsOrderedInsert le a l := rfl

/-- Insertion permutes. -/
theorem jsOrderedInsert_perm {α : Type} (le : α → α → Bool) (a : α) (l : List α) :
    (jsOrderedInsert le a l).Perm (a :: l) := by
  induction l with
  | nil => exact List.Perm.refl _
  | cons b t ih =>
    rw [jsOrderedInsert_cons]
    by_cases h : le a b
    · simp [h]
    · rw [if_neg h]
      exact (ih.cons b).trans (List.Perm.swap a b t)

/-- Sorting permutes. -/
theorem jsStableSort_perm {α : Type} (le : α → α → Bool) (l : List α) :
    (jsStableSort le l).Perm l := by
  induction l with
  | nil => exact List.Perm.refl _
  | cons a t ih =>
    exact (jsOrderedInsert_perm le a (jsStableSort le t)).trans (ih.cons a)

/-- Membership in the sorted list is membership in the input. -/
theorem mem_jsStableSort {α : Type} (le : α → α → Bool) (l : List α) (x : α) :
    x ∈ jsStableSort le l ↔ x ∈ l :=
  (jsStableSort_perm le l).mem_iff

/-- Inserting into a `le`-sorted list keeps it sorted, given totality
of `le` between the new element and the list and transitivity from the
new element through the list. -/
theorem pairwise_jsOrderedInsert {α : Type} (le : α → α → Bool) (a : α) (l : List α)
    (hl : l.Pairwise (fun x y => le x y = true))
    (htot : ∀ b ∈ l, le a b = true ∨ le b a = true)
    (htrans : ∀ b c, b ∈ l → c ∈ l → le a b = true → le b c = true → le a c = true) :
    (jsOrderedInsert le a l).Pairwise (fun x y => le x y = true) := by
  induction l with
  | nil => simp [jsOrderedInsert]
  | cons b t ih =>
    rw [jsOrderedInsert_cons]
    rcases List.pairwise_cons.mp hl with ⟨hbt, ht⟩
    by_cases h : le a b = true
    · rw [if_pos h]
      refine List.pairwise_cons.mpr ⟨?_, hl⟩
      intro y hy
      rcases List.mem_cons.mp hy with rfl | hyt
      · exact h
      · exact htrans b y (by simp) (by simp [hyt]) h (hbt y hyt)
    · rw [if_neg (by simpa using h)]
      refine List.pairwise_cons.mpr ⟨?_, ?_⟩
      · intro y hy
        rcases List.mem_cons.mp ((jsOrderedInsert_perm le a t).mem_iff.mp hy) with rfl | hyt
        · rcases htot b (by simp) with hab | hba
          · exact absurd hab h
          · exact hba
        · exact hbt y hyt
      · exact ih ht (fun c hc => htot c (by simp [hc]))
          (fun c d hc hd => htrans c d (by simp [hc]) (by simp [hd]))
  
/-- The sort output is `le`-sorted, given totality and transitivity on
the input's members. -/
theorem pairwise_jsStableSort {α : Type} (le : α → α → Bool) (l : List α)
    (htot : ∀ a ∈ l, ∀ b ∈ l, le a b = true ∨ le b a = true)
    (htrans : ∀ a b c, a ∈ l → b ∈ l → c ∈ l →
      le a b = true → le b c = true → le a c = true) :
    (jsStableSort le l).Pairwise (fun x y => le x y = true) := by
  induction l with
  | nil => simp [jsStableSort]
  | cons a t ih =>
    show (jsOrderedInsert le a (jsStableSort le t)).Pairwise _
    refine pairwise_jsOrderedInsert le a (jsStableSort le t) ?_ ?_ ?_
    · exact ih (fun x hx y hy => htot x (by simp [hx]) y (by simp [hy]))
        (fun x y z hx hy hz => htrans x y z (by simp [hx]) (by simp [hy]) (by simp [hz]))
    · intro b hb
      exact htot a (by simp) b (by simp [(mem_jsStableSort le t b).mp hb])
    · intro b c hb hc
      exact htrans a b c (by simp) (by simp [(mem_jsStableSort le t b).mp hb])
        (by simp [(mem_jsStableSort le t c).mp hc])

/-- Sorting an already-sorted list is the identity. -/
theorem jsStableSort_of_pairwise {α : Type} (le : α → α → Bool) (l : List α)
    (h : l.Pairwise (fun x y => le x y = true)) : jsStableSort le l = l := by
  induction l with
  | nil => rfl
  | cons a t ih =>
    rcases List.pairwise_cons.mp h with ⟨hat, ht⟩
    show jsOrderedInsert le a (jsStableSort le t) = a :: t
    rw [ih ht]
    cases t with
    | nil => rfl
    | cons b t' => rw [jsOrderedInsert_cons, if_pos (hat b (by simp))]

/-- Sorting twice is sorting once, given totality and transitivity on
the input's members. -/
theorem jsStableSort_idem {α : Type} (le : α → α → Bool) (l : List α)
    (htot : ∀ a ∈ l, ∀ b ∈ l, le a b = true ∨ le b a = true)
    (htrans : ∀ a b c, a ∈ l → b ∈ l → c ∈ l →
      le a b = true → le b c = true → le a c = true) :
    jsStableSort le (jsStableSort le l) = jsStableSort le l :=
  jsStableSort_of_pairwise le _ (pairwise_jsStableSort le l htot htrans)

/-- Unfolding equation for `strCmp` on two cons cells. -/
theorem strCmp_cons (x y : Char) (xs ys : List Char) :
    strCmp (x :: xs) (y :: ys) =
      if x.toNat < y.toNat then -1
      else if y.toNat < x.toNat then 1
      else strCmp xs ys := rfl

/-- Lexicographic comparison is antisymmetric in sign. -/
theorem strCmp_swap (a b : List Char) : strCmp a b = -strCmp b a := by
  induction a generalizing b with
  | nil => cases b <;> simp [strCmp]
  | cons x xs ih =>
    cases b with
    | nil => simp [strCmp]
    | cons y ys =>
      rw [strCmp_cons, strCmp_cons]
      by_cases h1 : x.toNat < y.toNat
      · have h2 : ¬y.toNat < x.toNat := by omega
        simp [h1, h2]
      · by_cases h2 : y.toNat < x.toNat
        · simp [h1, h2]
        · simp [h1, h2, ih ys]

/-- The nonpositive side of lexicographic comparison is transitive. -/
theorem strCmp_trans (a b c : List Char) (h1 : strCmp a b ≤ 0) (h2 : strCmp b c ≤ 0) :
    strCmp a c ≤ 0 := by
  induction a generalizing b c with
  | nil => cases c <;> simp [strCmp]
  | cons x xs ih =>
    cases b with
    | nil => simp [strCmp] at h1
    | cons y ys =>
      cases c with
      | nil => simp [strCmp] at h2
      | cons z zs =>
        rw [strCmp_cons] at h1 h2 ⊢
        by_cases hxy : x.toNat < y.toNat
        · by_cases hyz : y.toNat < z.toNat
          · rw [if_pos (by omega)]
            omega
          · by_cases hzy : z.toNat < y.toNat
            · rw [if_neg hyz, if_pos hzy] at h2
              omega
            · rw [if_pos (by omega)]
              omega
        · by_cases hyx : y.toNat < x.toNat
          · rw [if_neg hxy, if_pos hyx] at h1
            omega
          · rw [if_neg hxy, if_neg hyx] at h1
            by_cases hyz : y.toNat < z.toNat
            · rw [if_pos (by omega)]
              omega
            · by_cases hzy : z.toNat < y.toNat
              · rw [if_neg hyz, if_pos hzy] at h2
                omega
              · rw [if_neg hyz, if_neg hzy] at h2
                rw [if_neg (by omega), if_neg (by omega)]
                exact ih ys zs h1 h2

/-- Unpacking `sortValOk`. -/
theorem sortValOk_facts (fields : List FieldDef) (sf : String) (d : JsDoc)
    (h : sortValOk fields sf d = true) :
    (docGet d.fields sf == JsValue.null || docGet d.fields sf == JsValue.undefined) = false ∧
    (∀ f, fields.find? (fun f' => f'.name == sf) = some f → f.type = .number →
      ∃ n, jsToNumber (docGet d.fields sf) = some n) := by
  unfold sortValOk at h
  simp only [Bool.and_eq_true, bne_iff_ne, ne_eq] at h
  obtain ⟨⟨hn, hu⟩, hm⟩ := h
  refine ⟨by simp [hn, hu], ?_⟩
  intro f hf htype
  rw [hf] at hm
  have hm' : (if f.type = FieldType.number then
      (jsToNumber (docGet d.fields sf)).isSome else true) = true := hm
  rw [if_pos htype] at hm'
  exact Option.isSome_iff_exists.mp hm'

/-- Under well-behaved values, the ascending comparator is
antisymmetric in sign. -/
theorem sortCompare_asc_swap (fields : List FieldDef) (sf : String) (a b : JsDoc)
    (ha : sortValOk fields sf a = true) (hb : sortValOk fields sf b = true) :
    sortCompare fields sf .asc a b = -sortCompare fields sf .asc b a := by
  obtain ⟨ha1, ha2⟩ := sortValOk_facts fields sf a ha
  obtain ⟨hb1, hb2⟩ := sortValOk_facts fields sf b hb
  rcases hf : fields.find? (fun f => f.name == sf) with _ | f
  · simp [sortCompare, hf]
  · by_cases htype : f.type = .number
    · obtain ⟨x, hx⟩ := ha2 f hf htype
      obtain ⟨y, hy⟩ := hb2 f hf htype
      simp only [sortCompare, hf, ha1, hb1, htype, hx, hy, Bool.false_eq_true, if_false]
      omega
    · rcases hft : f.type <;>
        simp_all [sortCompare, hf, strCmp_swap (jsValueToString (docGet a.fields sf))]

/-- Under well-behaved values, the descending comparator is the negated
ascending one. -/
theorem sortCompare_desc_eq (fields : List FieldDef) (sf : String) (a b : JsDoc)
    (ha : sortValOk fields sf a = true) (hb : sortValOk fields sf b = true) :
    sortCompare fields sf .desc a b = -sortCompare fields sf .asc a b := by
  obtain ⟨ha1, _⟩ := sortValOk_facts fields sf a ha
  obtain ⟨hb1, _⟩ := sortValOk_facts fields sf b hb
  rcases hf : fields.find? (fun f => f.name == sf) with _ | f
  · simp [sortCompare, hf]
  · simp only [sortCompare, hf, ha1, hb1, Bool.false_eq_true, if_false]

/-- Under well-behaved values, the ascending comparator is transitive
on its nonpositive side. -/
theorem sortCompare_asc_trans (fields : List FieldDef) (sf : String) (a b c : JsDoc)
    (ha : sortValOk fields sf a = true) (hb : sortValOk fields sf b = true)
    (hc : sortValOk fields sf c = true)
    (h1 : sortCompare fields sf .asc a b ≤ 0) (h2 : sortCompare fields sf .asc b c ≤ 0) :
    sortCompare fields sf .asc a c ≤ 0 := by
  obtain ⟨ha1, ha2⟩ := sortValOk_facts fields sf a ha
  obtain ⟨hb1, hb2⟩ := sortValOk_facts fields sf b hb
  obtain ⟨hc1, hc2⟩ := sortValOk_facts fields sf c hc
  rcases hf : fields.find? (fun f => f.name == sf) with _ | f
  · simp [sortCompare, hf]
  · by_cases htype : f.type = .number
    · obtain ⟨x, hx⟩ := ha2 f hf htype
      obtain ⟨y, hy⟩ := hb2 f hf htype
      obtain ⟨z, hz⟩ := hc2 f hf htype
      rw [sortCompare] at h1 h2 ⊢
      simp only [hf, ha1, hb1, hc1, htype, hx, hy, hz, Bool.false_eq_true, if_false] at h1 h2 ⊢
      omega
    · rcases hft : f.type
      all_goals try exact absurd hft htype
      all_goals
        rw [sortCompare] at h1 h2 ⊢
        simp only [hf, ha1, hb1, hc1, hft, Bool.false_eq_true, if_false] at h1 h2 ⊢
        exact strCmp_trans _ _ _ h1 h2

/-- Totality of the boolean sort relation on well-behaved documents. -/
theorem docLe_total (fields : List FieldDef) (sf : String) (dir : SortDir) (a b : JsDoc)
    (ha : sortValOk fields sf a = true) (hb : sortValOk fields sf b = true) :
    docLe fields sf dir a b = true ∨ docLe fields sf dir b a = true := by
  unfold docLe
  simp only [decide_eq_true_eq]
  cases dir with
  | asc =>
    have hs := sortCompare_asc_swap fields sf a b ha hb
    omega
  | desc =>
    have hab := sortCompare_desc_eq fields sf a b ha hb
    have hba := sortCompare_desc_eq fields sf b a hb ha
    have hs := sortCompare_asc_swap fields sf a b ha hb
    omega

/-- Transitivity of the boolean sort relation on well-behaved
documents. -/
theorem docLe_trans (fields : List FieldDef) (sf : String) (dir : SortDir) (a b c : JsDoc)
    (ha : sortValOk fields sf a = true) (hb : sortValOk fields sf b = true)
    (hc : sortValOk fields sf c = true)
    (h1 : docLe fields sf dir a b = true) (h2 : docLe fields sf dir b c = true) :
    docLe fields sf dir a c = true := by
  unfold docLe at h1 h2 ⊢
  simp only [decide_eq_true_eq] at h1 h2 ⊢
  cases dir with
  | asc => exact sortCompare_asc_trans fields sf a b c ha hb hc h1 h2
  | desc =>
    rw [sortCompare_desc_eq fields sf a b ha hb] at h1
    rw [sortCompare_desc_eq fields sf b c hb hc] at h2
    rw [sortCompare_desc_eq fields sf a c ha hc]
    have hab := sortCompare_asc_swap fields sf a b ha hb
    have hbc := sortCompare_asc_swap fields sf b c hb hc
    have hac := sortCompare_asc_swap fields sf a c ha hc
    have := sortCompare_asc_trans fields sf c b a hc hb ha (by omega) (by omega)
    omega

/-- Displaying with the sort switched off is the identity. -/
theorem processedDocs_no_sort (fields : List FieldDef) (l : List JsDoc) :
    processedDocs l fields none none = l := by
  cases l <;> rfl

/-- C8 (counterexample).  With two documents whose sort-field values
are both `null`, the comparator returns `1` for *either* order (the
null checks run before the direction is applied), so it is inconsistent
and a stable sort honouring it swaps the pair on every pass: sorting
twice does not equal sorting once.  (For such a comparator ECMAScript
itself leaves the resulting order implementation-defined, so the
claimed guarantee cannot be drawn from the code either way.) -/
theorem claim_C8_counterexample :
    processedDocs
        (processedDocs
          [⟨['a'], [("score", JsValue.null)]⟩, ⟨['b'], [("score", JsValue.null)]⟩]
          [⟨"score", FieldType.number, [], none, 0⟩] (some "score") (some SortDir.asc))
        [⟨"score", FieldType.number, [], none, 0⟩] (some "score") (some SortDir.asc) ≠
      processedDocs
        [⟨['a'], [("score", JsValue.null)]⟩, ⟨['b'], [("score", JsValue.null)]⟩]
        [⟨"score", FieldType.number, [], none, 0⟩] (some "score") (some SortDir.asc) := by
  decide

/-- C8 (amended).  When every document's sort-field value is non-null,
non-undefined and (for a numeric sort field) numeric, the comparator is
a total preorder and sorting twice yields exactly the same order as
sorting once; and — for every list, with no hypothesis — clicking the
same header three times (ascending, descending, off) returns the sort
state to `(null, null)`, where the displayed list is the filtered
snapshot in its original order. -/
theorem claim_C8 (fields : List FieldDef) (sf : String) (dir : SortDir)
    (docs : List JsDoc) (l : List JsDoc) (g : String)
    (hok : ∀ d ∈ docs, sortValOk fields sf d = true) :
    processedDocs (processedDocs docs fields (some sf) (some dir)) fields
        (some sf) (some dir) =
      processedDocs docs fields (some sf) (some dir) ∧
    handleSort g (handleSort g (handleSort g ⟨none, none⟩)) = ⟨none, none⟩ ∧
    processedDocs l fields none none = l := by
  refine ⟨?_, ?_, processedDocs_no_sort fields l⟩
  · cases docs with
    | nil => rfl
    | cons d ds =>
      have h1 : processedDocs (d :: ds) fields (some sf) (some dir) =
          jsStableSort (docLe fields sf dir) (d :: ds) := rfl
      have hne : jsStableSort (docLe fields sf dir) (d :: ds) ≠ [] := by
        intro h0
        have hl := (jsStableSort_perm (docLe fields sf dir) (d :: ds)).length_eq
        rw [h0] at hl
        simp at hl
      obtain ⟨e, es, hees⟩ : ∃ e es,
          jsStableSort (docLe fields sf dir) (d :: ds) = e :: es := by
        cases h : jsStableSort (docLe fields sf dir) (d :: ds) with
        | nil => exact absurd h hne
        | cons e es => exact ⟨e, es, rfl⟩
      have h2 : processedDocs (jsStableSort (docLe fields sf dir) (d :: ds)) fields
          (some sf) (some dir) =
          jsStableSort (docLe fields sf dir)
            (jsStableSort (docLe fields sf dir) (d :: ds)) := by
        rw [hees]
        rfl
      rw [h1, h2]
      exact jsStableSort_idem (docLe fields sf dir) (d :: ds)
        (fun a ha b hb => docLe_total fields sf dir a b (hok a ha) (hok b hb))
        (fun a b c ha hb hc h1' h2' =>
          docLe_trans fields sf dir a b c (hok a ha) (hok b hb) (hok c hc) h1' h2')
  · have e1 : handleSort g (⟨none, none⟩ : SortState) = ⟨some g, some SortDir.asc⟩ := rfl
    have e2 : handleSort g ⟨some g, some SortDir.asc⟩ = ⟨some g, some SortDir.desc⟩ := by
      unfold handleSort
      rw [if_pos (by simp)]
    have e3 : handleSort g ⟨some g, some SortDir.desc⟩ = ⟨none, none⟩ := by
      unfold handleSort
      rw [if_pos (by simp)]
    rw [e1, e2, e3]

/-- C8 (witness). -/
theorem claim_C8_witness :
    processedDocs
        (processedDocs
          [⟨['a'], [("score", JsValue.num 2)]⟩, ⟨['b'], [("score", JsValue.num 1)]⟩]
          [⟨"score", FieldType.number, [], none, 0⟩] (some "score") (some SortDir.asc))
        [⟨"score", FieldType.number, [], none, 0⟩] (some "score") (some SortDir.asc) =
      processedDocs
        [⟨['a'], [("score", JsValue.num 2)]⟩, ⟨['b'], [("score", JsValue.num 1)]⟩]
        [⟨"score", FieldType.number, [], none, 0⟩] (some "score") (some SortDir.asc) ∧
    handleSort "score" (handleSort "score" (handleSort "score" ⟨none, none⟩)) =
      ⟨none, none⟩ ∧
    processedDocs [⟨['a'], [("score", JsValue.num 2)]⟩]
        [⟨"score", FieldType.number, [], none, 0⟩] none none =
      [⟨['a'], [("score", JsValue.num 2)]⟩] :=
  claim_C8 [⟨"score", FieldType.number, [], none, 0⟩] "score" SortDir.asc
    [⟨['a'], [("score", JsValue.num 2)]⟩, ⟨['b'], [("score", JsValue.num 1)]⟩]
    [⟨['a'], [("score", JsValue.num 2)]⟩] "score" (by decide)

/-! ### C4 — CSV round trip -/

/-- Unpacking `csvSafeStr`. -/
theorem csvSafeStr_facts (s : List Char) (h : csvSafeStr s = true) :
    s.contains ',' = false ∧ s.contains '"' = false ∧ s.contains '\n' = false ∧
      trimChars s = s := by
  unfold csvSafeStr at h
  simp only [Bool.and_eq_true, Bool.not_eq_true', beq_iff_eq] at h
  tauto

/-- `contains` disproves membership. -/
theorem not_mem_of_contains_eq_false (c : Char) (s : List Char)
    (h : s.contains c = false) : c ∉ s := by
  intro hm
  have h' : s.contains c = true := List.elem_iff.mpr hm
  rw [h'] at h
  exact absurd h (by decide)

/-- A safe string is exported verbatim. -/
theorem csvCell_safe (s : List Char) (h : csvSafeStr s = true) :
    csvCell (.str s) = s := by
  obtain ⟨h1, h2, h3, _⟩ := csvSafeStr_facts s h
  show (if (s.contains ',' || s.contains '"' || s.contains '\n') = true then
      '"' :: doubleQuotesIn s ++ ['"'] else s) = s
  rw [h1, h2, h3]
  rfl

/-- The import-side cleanup keeps a safe string intact. -/
theorem csvCellClean_safe (s : List Char) (h : csvSafeStr s = true) :
    csvCellClean s = s := by
  obtain ⟨_, h2, _, h4⟩ := csvSafeStr_facts s h
  have hq : '"' ∉ s := not_mem_of_contains_eq_false '"' s h2
  have hhead : ¬s.headD ' ' = '"' := by
    cases s with
    | nil => decide
    | cons c cs =>
      intro hc
      exact hq (by simp [List.headD_cons] at hc; simp [hc])
  have hlast : (s.getLast? == some '"') = false := by
    cases hgl : s.getLast? with
    | none => rfl
    | some x =>
      have hx : x ∈ s := by
        obtain ⟨hne', hxe⟩ :=
          List.mem_getLast?_eq_getLast (show x ∈ s.getLast? by rw [hgl]; rfl)
        rw [hxe]
        exact List.getLast_mem hne'
      have : ¬x = '"' := fun h => hq (h ▸ hx)
      simp [hgl, this]
  have hstep : csvCellClean s =
      (if (((if (trimChars s).headD ' ' = '"' then (trimChars s).drop 1
            else trimChars s).getLast? == some '"') = true) then
        (if (trimChars s).headD ' ' = '"' then (trimChars s).drop 1
          else trimChars s).dropLast
       else
        (if (trimChars s).headD ' ' = '"' then (trimChars s).drop 1
          else trimChars s)) := rfl
  rw [hstep, h4]
  simp only [if_neg hhead]
  rw [hlast]
  rfl

/-- The export cell of a well-shaped non-numeric value has no comma or
newline, is kept intact by the import cleanup, and coerces back to the
original value. -/
theorem csvCell_roundtrip (f : FieldDef) (v : JsValue)
    (hf : f.type ≠ FieldType.number) (hv : fieldValueOk f v = true) :
    ',' ∉ csvCell v ∧ '\n' ∉ csvCell v ∧ csvCellClean (csvCell v) = csvCell v ∧
      coerceEditedValue f (csvCell v) = v := by
  rcases hft : f.type
  case number => exact absurd hft hf
  case boolean =>
    cases v with
    | bool b =>
      cases b
      · refine ⟨by decide, by decide, by decide, ?_⟩
        simp only [coerceEditedValue, hft]
        decide
      · refine ⟨by decide, by decide, by decide, ?_⟩
        simp only [coerceEditedValue, hft]
        decide
    | str s => simp [fieldValueOk, hft] at hv
    | num n => simp [fieldValueOk, hft] at hv
    | null => simp [fieldValueOk, hft] at hv
    | undefined => simp [fieldValueOk, hft] at hv
  all_goals
    cases v with
    | str s =>
      simp only [fieldValueOk, hft] at hv
      rw [csvCell_safe s hv]
      obtain ⟨h1, _, h3, _⟩ := csvSafeStr_facts s hv
      refine ⟨not_mem_of_contains_eq_false ',' s h1,
        not_mem_of_contains_eq_false '\n' s h3, csvCellClean_safe s hv, ?_⟩
      simp [coerceEditedValue, hft]
    | num n => simp [fieldValueOk, hft] at hv
    | bool b => simp [fieldValueOk, hft] at hv
    | null => simp [fieldValueOk, hft] at hv
    | undefined => simp [fieldValueOk, hft] at hv

/-- The import loop over a positionally built row reads exactly the
per-field cells. -/
theorem importRowVals_map (fields : List FieldDef) (g : FieldDef → List Char) :
    importRowVals fields (fields.map g) =
      fields.map (fun f => (f.name, coerceEditedValue f (g f))) := by
  induction fields with
  | nil => rfl
  | cons f fs ih =>
    simp only [List.map_cons, importRowVals, List.headD_cons, List.drop_one,
      List.tail_cons, ih]

/-- Rebuilding a schema-shaped association list field by field is the
identity. -/
theorem assoc_reconstruct (fields : List FieldDef) (dfields : List (String × JsValue))
    (hshape : dfields.map Prod.fst = fields.map FieldDef.name)
    (hnodup : (fields.map FieldDef.name).Nodup) :
    fields.map (fun f => (f.name, docGet dfields f.name)) = dfields := by
  induction fields generalizing dfields with
  | nil =>
    cases dfields with
    | nil => rfl
    | cons p ps => simp at hshape
  | cons f fs ih =>
    cases dfields with
    | nil => simp at hshape
    | cons p ps =>
      obtain ⟨k, v⟩ := p
      simp only [List.map_cons, List.cons.injEq] at hshape
      obtain ⟨hp1, hps⟩ := hshape
      subst hp1
      simp only [List.map_cons, List.nodup_cons] at hnodup
      obtain ⟨hnin, hnd⟩ := hnodup
      have hget : docGet ((f.name, v) :: ps) f.name = v := by
        simp [docGet, List.lookup]
      have htail : ∀ f' ∈ fs, docGet ((f.name, v) :: ps) f'.name = docGet ps f'.name := by
        intro f' hf'
        have hne : (f'.name == f.name) = false := by
          have hmem : f'.name ∈ fs.map FieldDef.name := List.mem_map_of_mem _ hf'
          exact beq_eq_false_iff_ne.mpr (fun he => hnin (he ▸ hmem))
        simp [docGet, List.lookup, hne]
      rw [List.map_cons, hget]
      have hmc : fs.map (fun f' => (f'.name, docGet ((f.name, v) :: ps) f'.name)) =
          fs.map (fun f' => (f'.name, docGet ps f'.name)) :=
        List.map_congr_left (fun f' hf' => by rw [htail f' hf'])
      rw [hmc, ih ps hps hnd]

/-- A schema without validation rules accepts every document. -/
theorem validateDocument_no_rules (regexTest : List Char → List Char → Option Bool)
    (urlValid : List Char → Bool) (doc : List (String × JsValue))
    (fields : List FieldDef) (h : ∀ f ∈ fields, f.validation = none) :
    (validateDocument regexTest urlValid doc fields).isValid = true := by
  unfold validateDocument
  have hnil : fields.filterMap
      (fun f => validateField regexTest urlValid f.name (docGet doc f.name) f.validation) = [] := by
    rw [List.filterMap_eq_nil]
    intro f hf
    rw [h f hf]
    rfl
  simp [hnil]

/-- The header check accepts its own expected sequence. -/
theorem headersMatchExpected_self (e : List (List Char)) :
    headersMatchExpected e e = true := by
  rw [headersMatchExpected_iff]

/-- Collapsing the outcome list when every row is written. -/
theorem outcomes_all_written (l : List JsDoc) (F : JsDoc → CSVRowOutcome)
    (h : ∀ d ∈ l, F d = .written d.id d.fields) :
    ((l.map F).filterMap (fun o =>
        match o with
        | CSVRowOutcome.written i d => some (i, d)
        | _ => none) = l.map (fun d => (d.id, d.fields))) ∧
    (l.map F).countP (fun o =>
        match o with
        | CSVRowOutcome.written _ _ => true
        | _ => false) = l.length ∧
    (l.map F).countP (fun o => o == CSVRowOutcome.counted) = 0 := by
  induction l with
  | nil => exact ⟨rfl, rfl, rfl⟩
  | cons d ds ih =>
    obtain ⟨ih1, ih2, ih3⟩ := ih (fun x hx => h x (by simp [hx]))
    have hd := h d (by simp)
    refine ⟨?_, ?_, ?_⟩
    · simp only [List.map_cons, List.filterMap_cons, hd, ih1]
    · simp only [List.map_cons, List.countP_cons, hd, ih2, List.length_cons]
      simp
    · simp only [List.map_cons, List.countP_cons, hd, ih3]
      rfl

/-- Parsing the exported text recovers the header cells and the row
cells exactly, when every cell is comma/newline-free and stable under
the import cleanup. -/
theorem parseCSVRows_export (fields : List FieldDef) (docs : List JsDoc)
    (hnames : ∀ f ∈ fields, csvSafeStr f.name.toList = true)
    (hids : ∀ d ∈ docs, csvSafeStr d.id = true)
    (hcells : ∀ d ∈ docs, ∀ f ∈ fields,
      ',' ∉ csvCell (docGet d.fields f.name) ∧ '\n' ∉ csvCell (docGet d.fields f.name) ∧
        csvCellClean (csvCell (docGet d.fields f.name)) = csvCell (docGet d.fields f.name)) :
    parseCSVRows (csvContentOf fields docs) =
      expectedHeaderCells fields :: docs.map (csvRowCells fields) := by
  have hHeaderCells : ∀ cell ∈ expectedHeaderCells fields,
      ',' ∉ cell ∧ '\n' ∉ cell ∧ csvCellClean cell = cell := by
    intro cell hc
    rcases List.mem_cons.mp hc with rfl | hcm
    · exact ⟨by decide, by decide, by decide⟩
    · obtain ⟨f, hf, rfl⟩ := List.mem_map.mp hcm
      have hs := hnames f hf
      obtain ⟨h1, _, h3, _⟩ := csvSafeStr_facts _ hs
      exact ⟨not_mem_of_contains_eq_false _ _ h1,
        not_mem_of_contains_eq_false _ _ h3, csvCellClean_safe _ hs⟩
  have hRowCells : ∀ d ∈ docs, ∀ cell ∈ csvRowCells fields d,
      ',' ∉ cell ∧ '\n' ∉ cell ∧ csvCellClean cell = cell := by
    intro d hd cell hc
    rcases List.mem_cons.mp hc with rfl | hcm
    · have hs := hids d hd
      obtain ⟨h1, _, h3, _⟩ := csvSafeStr_facts _ hs
      exact ⟨not_mem_of_contains_eq_false _ _ h1,
        not_mem_of_contains_eq_false _ _ h3, csvCellClean_safe _ hs⟩
    · obtain ⟨f, hf, rfl⟩ := List.mem_map.mp hcm
      exact hcells d hd f hf
  have hlineNoNl : ∀ line ∈ csvLinesOf fields docs, '\n' ∉ line := by
    intro line hl
    rcases List.mem_cons.mp hl with rfl | hlm
    · intro hn
      rcases mem_joinWithChar ',' '\n' _ hn with heq | ⟨p, hp, hnp⟩
      · exact absurd heq (by decide)
      · exact (hHeaderCells p hp).2.1 hnp
    · obtain ⟨d, hd, rfl⟩ := List.mem_map.mp hlm
      intro hn
      rcases mem_joinWithChar ',' '\n' _ hn with heq | ⟨p, hp, hnp⟩
      · exact absurd heq (by decide)
      · exact (hRowCells d hd p hp).2.1 hnp
  unfold parseCSVRows csvContentOf
  rw [splitOnChar_joinWithChar '\n' (csvLinesOf fields docs)
    (by simp [csvLinesOf]) hlineNoNl]
  show (joinWithChar ',' (expectedHeaderCells fields) ::
      docs.map (fun d => joinWithChar ',' (csvRowCells fields d))).map
      (fun row => (splitOnChar ',' row).map csvCellClean) =
    expectedHeaderCells fields :: docs.map (csvRowCells fields)
  rw [List.map_cons, List.map_map]
  congr 1
  · rw [splitOnChar_joinWithChar ',' _ (by simp [expectedHeaderCells])
      (fun p hp => (hHeaderCells p hp).1)]
    rw [List.map_congr_left (fun p hp => (hHeaderCells p hp).2.2)]
    exact List.map_id _
  · apply List.map_congr_left
    intro d hd
    show (splitOnChar ',' (joinWithChar ',' (csvRowCells fields d))).map csvCellClean =
      csvRowCells fields d
    rw [splitOnChar_joinWithChar ',' _ (by simp [csvRowCells])
      (fun p hp => (hRowCells d hd p hp).1)]
    rw [List.map_congr_left (fun p hp => (hRowCells d hd p hp).2.2)]
    exact List.map_id _

/-- One exported row re-imports as a staged write when its length
matches, its document validates, and its id is non-empty. -/
theorem csvProcessRow_written (regexTest : List Char → List Char → Option Bool)
    (urlValid : List Char → Bool) (fields : List FieldDef) (hl : Nat)
    (row : List (List Char)) (h1 : row.length = hl)
    (h2 : (validateDocument regexTest urlValid
      (importRowVals fields (row.drop 1)) fields).isValid = true)
    (h3 : row.headD [] ≠ []) :
    csvProcessRow regexTest urlValid fields hl row =
      .written (row.headD []) (importRowVals fields (row.drop 1)) := by
  unfold csvProcessRow
  rw [if_neg (show ¬row.length ≠ hl from by omega)]
  have hemp : (row.headD []).isEmpty = false := by
    cases hh : row.headD [] with
    | nil => exact absurd hh h3
    | cons a t => rfl
  simp only [h2, Bool.not_true, Bool.false_eq_true, if_false, hemp]

/-- C4 (counterexample).  A text value containing a comma is exported
inside quotes, but the import splits the line on every comma before
looking at quotes, so the data row has more cells than the header and
is silently dropped: importing the export of one document yields no
documents at all. -/
theorem claim_C4_counterexample :
    handleCSVUpload (fun _ _ => some true) (fun _ => true)
        (csvContentOf [⟨"name", FieldType.text, [], none, 0⟩]
          [⟨['d', '1'], [("name", JsValue.str "a,b".toList)]⟩])
        [⟨"name", FieldType.text, [], none, 0⟩] =
      .ok ⟨[], 0, 0⟩ ∧
    ([⟨['d', '1'], [("name", JsValue.str "a,b".toList)]⟩] : List JsDoc).map
        (fun d => (d.id, d.fields)) ≠ [] :=
  ⟨rfl, by decide⟩

/-- C4 (amended).  The export/import round trip reconstructs the
documents exactly — same ids, same field values in schema order, every
row staged and none counted as failed — for schemas of non-numeric
fields without validation rules whose names are CSV-safe, and documents
whose ids are non-empty CSV-safe strings and whose values are booleans
(for boolean fields) or CSV-safe strings: free of commas, double
quotes and newlines and stable under trimming.  Values containing
commas, quotes or newlines do *not* round-trip (see the
counterexample): the import splits on raw newlines and commas and never
un-doubles quotes. -/
theorem claim_C4 (regexTest : List Char → List Char → Option Bool)
    (urlValid : List Char → Bool) (fields : List FieldDef) (docs : List JsDoc)
    (hnodup : (fields.map FieldDef.name).Nodup)
    (hfields : ∀ f ∈ fields, f.validation = none ∧ f.type ≠ FieldType.number ∧
      csvSafeStr f.name.toList = true)
    (hdocs : ∀ d ∈ docs, d.id ≠ [] ∧ csvSafeStr d.id = true ∧
      d.fields.map Prod.fst = fields.map FieldDef.name)
    (hvals : ∀ d ∈ docs, ∀ f ∈ fields, fieldValueOk f (docGet d.fields f.name) = true)
    (hne : docs ≠ []) :
    downloadCSV docs fields = some (csvContentOf fields docs) ∧
    handleCSVUpload regexTest urlValid (csvContentOf fields docs) fields =
      .ok ⟨docs.map (fun d => (d.id, d.fields)), docs.length, 0⟩ := by
  have hnames : ∀ f ∈ fields, csvSafeStr f.name.toList = true :=
    fun f hf => (hfields f hf).2.2
  have hids : ∀ d ∈ docs, csvSafeStr d.id = true := fun d hd => (hdocs d hd).2.1
  have hcf : ∀ d ∈ docs, ∀ f ∈ fields,
      ',' ∉ csvCell (docGet d.fields f.name) ∧
        '\n' ∉ csvCell (docGet d.fields f.name) ∧
        csvCellClean (csvCell (docGet d.fields f.name)) = csvCell (docGet d.fields f.name) ∧
        coerceEditedValue f (csvCell (docGet d.fields f.name)) = docGet d.fields f.name :=
    fun d hd f hf => csvCell_roundtrip f _ (hfields f hf).2.1 (hvals d hd f hf)
  have hparse := parseCSVRows_export fields docs hnames hids
    (fun d hd f hf =>
      ⟨(hcf d hd f hf).1, (hcf d hd f hf).2.1, (hcf d hd f hf).2.2.1⟩)
  refine ⟨?_, ?_⟩
  · cases docs with
    | nil => exact absurd rfl hne
    | cons d ds => rfl
  · have hrow : ∀ d ∈ docs,
        csvProcessRow regexTest urlValid fields (expectedHeaderCells fields).length
          (csvRowCells fields d) = .written d.id d.fields := by
      intro d hd
      have hdd : importRowVals fields ((csvRowCells fields d).drop 1) = d.fields := by
        have hdr : (csvRowCells fields d).drop 1 =
            fields.map (fun f => csvCell (docGet d.fields f.name)) := by
          simp [csvRowCells]
        rw [hdr, importRowVals_map]
        rw [List.map_congr_left (fun f hf => by rw [(hcf d hd f hf).2.2.2])]
        exact assoc_reconstruct fields d.fields (hdocs d hd).2.2 hnodup
      have hhead : (csvRowCells fields d).headD [] = d.id := by simp [csvRowCells]
      have h1 : (csvRowCells fields d).length = (expectedHeaderCells fields).length := by
        simp [csvRowCells, expectedHeaderCells]
      have h2 : (validateDocument regexTest urlValid
          (importRowVals fields ((csvRowCells fields d).drop 1)) fields).isValid = true := by
        rw [hdd]
        exact validateDocument_no_rules regexTest urlValid d.fields fields
          (fun f hf => (hfields f hf).1)
      have h3 : (csvRowCells fields d).headD [] ≠ [] := by
        rw [hhead]
        exact (hdocs d hd).1
      rw [csvProcessRow_written regexTest urlValid fields _ _ h1 h2 h3, hdd, hhead]
    unfold handleCSVUpload
    rw [hparse]
    simp only [headersMatchExpected_self, Bool.not_true, Bool.false_eq_true, if_false,
      List.map_map]
    obtain ⟨hw, hs, he⟩ := outcomes_all_written docs
      (fun d => csvProcessRow regexTest urlValid fields
        (expectedHeaderCells fields).length (csvRowCells fields d)) hrow
    simp only [Function.comp_def]
    rw [hw, hs, he]

/-- C4 (witness). -/
theorem claim_C4_witness :
    downloadCSV
        [⟨"d1".toList, [("name", JsValue.str "hello".toList), ("flag", JsValue.bool true)]⟩]
        [⟨"name", FieldType.text, [], none, 0⟩, ⟨"flag", FieldType.boolean, [], none, 0⟩] =
      some (csvContentOf
        [⟨"name", FieldType.text, [], none, 0⟩, ⟨"flag", FieldType.boolean, [], none, 0⟩]
        [⟨"d1".toList, [("name", JsValue.str "hello".toList), ("flag", JsValue.bool true)]⟩]) ∧
    handleCSVUpload (fun _ _ => some true) (fun _ => true)
        (csvContentOf
          [⟨"name", FieldType.text, [], none, 0⟩, ⟨"flag", FieldType.boolean, [], none, 0⟩]
          [⟨"d1".toList, [("name", JsValue.str "hello".toList), ("flag", JsValue.bool true)]⟩])
        [⟨"name", FieldType.text, [], none, 0⟩, ⟨"flag", FieldType.boolean, [], none, 0⟩] =
      .ok
        ⟨([⟨"d1".toList, [("name", JsValue.str "hello".toList), ("flag", JsValue.bool true)]⟩] :
            List JsDoc).map (fun d => (d.id, d.fields)),
          ([⟨"d1".toList, [("name", JsValue.str "hello".toList), ("flag", JsValue.bool true)]⟩] :
            List JsDoc).length, 0⟩ :=
  claim_C4 (fun _ _ => some true) (fun _ => true)
    [⟨"name", FieldType.text, [], none, 0⟩, ⟨"flag", FieldType.boolean, [], none, 0⟩]
    [⟨"d1".toList, [("name", JsValue.str "hello".toList), ("flag", JsValue.bool true)]⟩]
    (by decide) (by decide) (by decide) (by decide) (by decide)
